import Mathlib

set_option maxRecDepth 8000

/-!
Verification development for the `artmap` DMX proxy (Go).

Byte slices are modelled as `List Nat` (each element one byte).
Go code that can panic at runtime (out-of-range index or slice
expression) is modelled with the `ARes` result type below, whose
`oob` constructor stands for the runtime panic; `err` stands for a
returned Go `error`.  All other functions are direct translations of
the corresponding Go functions from the repository.
-/

/-- Result of running a fallible piece of Go code: `ok` (no error),
`err` (a Go `error` value was returned), `oob` (runtime panic from an
out-of-bounds index or slice). -/
inductive ARes (α : Type) where
  | ok : α → ARes α
  | err : ARes α
  | oob : ARes α
deriving DecidableEq, Repr

def ARes.bind {α β : Type} : ARes α → (α → ARes β) → ARes β
  | .ok a, f => f a
  | .err, _ => .err
  | .oob, _ => .oob

instance : Monad ARes where
  pure := ARes.ok
  bind := ARes.bind

/-- Byte read `data[i]` guarded by the model: in-range reads give the
byte, out-of-range reads are the Go runtime panic. -/
def aidx (data : List Nat) (i : Nat) : ARes Nat :=
  if h : i < data.length then .ok (data.get ⟨i, h⟩) else .oob

/-- Slice `data[a:b]` (with `cap = len`): ok when `a ≤ b ≤ len`. -/
def aslice (data : List Nat) (a b : Nat) : ARes (List Nat) :=
  if a ≤ b ∧ b ≤ data.length then .ok ((data.drop a).take (b - a)) else .oob

/-- Unchecked byte read used where the Go code has already checked the
length; `getD` with default 0 (never hit on the guarded paths). -/
def byteAt (data : List Nat) (i : Nat) : Nat := data.getD i 0

/-- `binary.BigEndian.Uint16(data[i:i+2])`. -/
def be16At (data : List Nat) (i : Nat) : Nat := byteAt data i * 256 + byteAt data (i + 1)

/-- `binary.LittleEndian.Uint16(data[i:i+2])`. -/
def le16At (data : List Nat) (i : Nat) : Nat := byteAt data i + byteAt data (i + 1) * 256

/-- `binary.BigEndian.Uint32(data[i:i+4])`. -/
def be32At (data : List Nat) (i : Nat) : Nat :=
  byteAt data i * 16777216 + byteAt data (i + 1) * 65536 +
    byteAt data (i + 2) * 256 + byteAt data (i + 3)

/-- `binary.BigEndian.PutUint16`: the two bytes of `v` (as uint16). -/
def u16be (v : Nat) : List Nat := [v / 256 % 256, v % 256]

/-- `binary.LittleEndian.PutUint16`. -/
def u16le (v : Nat) : List Nat := [v % 256, v / 256 % 256]

/-- `binary.BigEndian.PutUint32`. -/
def u32be (v : Nat) : List Nat :=
  [v / 16777216 % 256, v / 65536 % 256, v / 256 % 256, v % 256]

/-- Zero-padded copy into an `n`-byte zeroed buffer:
`copy(buf[k:k+n], s)` with `buf` zero-initialised. -/
def padTo (n : Nat) (l : List Nat) : List Nat :=
  l.take n ++ List.replicate (n - l.length) 0

theorem padTo_length (n : Nat) (l : List Nat) : (padTo n l).length = n := by
  simp only [padTo, List.length_append, List.length_take, List.length_replicate]
  omega

/-! ## Art-Net codec (src/artnet/protocol.go) -/

/-- `ArtNetID = "Art-Net\0"`. -/
def artNetID : List Nat := [65, 114, 116, 45, 78, 101, 116, 0]

/-- `DMXPacket` (ArtDmx, opcode 0x5000). `data` is the 512-byte DMX
payload array. -/
structure DMXPacket where
  protocolVersion : Nat
  sequence : Nat
  physical : Nat
  univ : Nat
  length : Nat
  data : List Nat
deriving DecidableEq, Repr

structure PollPacket where
  protocolVersion : Nat
  flags : Nat
  diagPriority : Nat
deriving DecidableEq, Repr

/-- `PollReplyPacket` (ArtPollReply, opcode 0x2100). -/
structure PollReplyPacket where
  ipAddress : List Nat := []
  port : Nat := 0
  versionInfo : Nat := 0
  netSwitch : Nat := 0
  subSwitch : Nat := 0
  oemHi : Nat := 0
  oem : Nat := 0
  ubeaVersion : Nat := 0
  status1 : Nat := 0
  estaMan : Nat := 0
  shortName : List Nat := []
  longName : List Nat := []
  nodeReport : List Nat := []
  numPortsHi : Nat := 0
  numPortsLo : Nat := 0
  portTypes : List Nat := []
  goodInput : List Nat := []
  goodOutput : List Nat := []
  swIn : List Nat := []
  swOut : List Nat := []
  style : Nat := 0
  mac : List Nat := []
  bindIP : List Nat := []
  bindIndex : Nat := 0
  status2 : Nat := 0
deriving DecidableEq, Repr

/-- `parseDMXPacket` from src/artnet/protocol.go.  After the `len ≥ 18`
check every numeric field read is in range; the DMX data copy is
guarded by `len(data) >= 18+dataLen` and skipped otherwise, leaving
the zero-valued 512-byte array. -/
def parseDMXPacket (data : List Nat) : ARes DMXPacket :=
  if data.length < 18 then .err
  else
    .ok { protocolVersion := be16At data 10
          sequence := byteAt data 12
          physical := byteAt data 13
          univ := le16At data 14
          length := be16At data 16
          data := if 18 + min (be16At data 16) 512 ≤ data.length then
                    (data.drop 18).take (min (be16At data 16) 512) ++
                      List.replicate (512 - min (be16At data 16) 512) 0
                  else List.replicate 512 0 }

def parsePollPacket (data : List Nat) : ARes PollPacket :=
  if data.length < 14 then .err
  else .ok { protocolVersion := be16At data 10
             flags := byteAt data 12
             diagPriority := byteAt data 13 }

/-- `parsePollReplyPacket` from src/artnet/protocol.go.  The guard is
`len(data) < 207`, yet the function goes on to read `data[212]`,
`data[213]` and the slice `data[207:211]`; those accesses are kept as
checked reads (`aidx`/`aslice`), so inputs of length 207–213 produce
`.oob` — the Go runtime panic. -/
def parsePollReplyPacket (data : List Nat) : ARes PollReplyPacket :=
  if data.length < 207 then .err
  else do
    let numPortsHi ← aidx data 172
    let numPortsLo ← aidx data 173
    let style ← aidx data 200
    let bindIndex ← aidx data 212
    let status2 ← aidx data 213
    let ipAddress ← aslice data 10 14
    let shortName ← aslice data 26 44
    let longName ← aslice data 44 108
    let nodeReport ← aslice data 108 172
    let portTypes ← aslice data 174 178
    let goodInput ← aslice data 178 182
    let goodOutput ← aslice data 182 186
    let swIn ← aslice data 186 190
    let swOut ← aslice data 190 194
    let mac ← aslice data 201 207
    let bindIP ← aslice data 207 211
    .ok { port := le16At data 14
          versionInfo := be16At data 16
          netSwitch := byteAt data 18
          subSwitch := byteAt data 19
          oemHi := byteAt data 20
          oem := byteAt data 21
          ubeaVersion := byteAt data 22
          status1 := byteAt data 23
          estaMan := le16At data 24
          numPortsHi := numPortsHi
          numPortsLo := numPortsLo
          style := style
          bindIndex := bindIndex
          status2 := status2
          ipAddress := ipAddress
          shortName := shortName
          longName := longName
          nodeReport := nodeReport
          portTypes := portTypes
          goodInput := goodInput
          goodOutput := goodOutput
          swIn := swIn
          swOut := swOut
          mac := mac
          bindIP := bindIP }

inductive ArtPayload where
  | dmx : DMXPacket → ArtPayload
  | poll : PollPacket → ArtPayload
  | pollReply : PollReplyPacket → ArtPayload
  | unknown : ArtPayload
deriving DecidableEq, Repr

/-- `ParsePacket` from src/artnet/protocol.go. -/
def parsePacketArt (data : List Nat) : ARes (Nat × ArtPayload) :=
  if data.length < 10 then .err
  else if data.take 8 ≠ artNetID then .err
  else
    let op := le16At data 8
    if op = 0x5000 then (parseDMXPacket data).bind fun p => .ok (op, .dmx p)
    else if op = 0x2000 then (parsePollPacket data).bind fun p => .ok (op, .poll p)
    else if op = 0x2100 then (parsePollReplyPacket data).bind fun p => .ok (op, .pollReply p)
    else .ok (op, .unknown)

/-- `BuildDMXPacket` from src/artnet/protocol.go.  `dataLen` is
clamped to 512 and rounded up to even; the final
`copy(buf[18:], data[:dataLen])` slices `data` up to `dataLen`, which
panics when the (odd-length) input is shorter than the rounded-up
length — modelled by `.oob`. -/
def buildDMXPacket (univ sequence : Nat) (d : List Nat) : ARes (List Nat) :=
  let n0 := min d.length 512
  let n := if n0 % 2 ≠ 0 then n0 + 1 else n0
  if n ≤ d.length then
    .ok (artNetID ++ u16le 0x5000 ++ u16be 14 ++ [sequence % 256, 0] ++
         u16le univ ++ u16be n ++ d.take n)
  else .oob

/-! ## sACN codec (src/sacn/protocol.go, src/sacn/fuzz_test.go) -/

/-- The 12-byte ACN packet identifier. -/
def acnPid : List Nat := [0x41, 0x53, 0x43, 0x2d, 0x45, 0x31, 0x2e, 0x31, 0x37, 0, 0, 0]

/-- Root layer of `BuildDataPacket` (bytes 0–37): preamble, post-amble,
identifier, flags-and-length `0x7000|(pktLen-16)`, root vector 4, CID. -/
def sacnRootLayer (n : Nat) (cid : List Nat) : List Nat :=
  u16be 0x10 ++ u16be 0 ++ acnPid ++ u16be (0x7000 ||| (126 + n - 16)) ++ u32be 4 ++ cid

/-- Framing-layer prefix (bytes 38–43): flags-and-length
`0x7000|(pktLen-38)` and framing vector 2. -/
def sacnFramingPre (n : Nat) : List Nat :=
  u16be (0x7000 ||| (126 + n - 38)) ++ u32be 2

/-- Framing layer after the source name (bytes 108–114): priority 100,
sync address 0, sequence, options 0, universe. -/
def sacnFramingPost (sequence univ : Nat) : List Nat :=
  [100] ++ u16be 0 ++ [sequence % 256, 0] ++ u16be univ

/-- DMP layer (bytes 115 onward): flags-and-length `0x7000|(11+n)`,
DMP vector 2, type 0xa1, first address 0, increment 1, property count
`n+1`, start code 0, and the (clamped) DMX data. -/
def sacnDmpLayer (n : Nat) (d : List Nat) : List Nat :=
  u16be (0x7000 ||| (11 + n)) ++ [2, 0xa1] ++ u16be 0 ++ u16be 1 ++
    u16be (n + 1) ++ [0] ++ d.take n

/-- `BuildDataPacket` from src/sacn/protocol.go, assembled layer by
layer at the same byte offsets as the Go buffer writes.
`n = min(len(data), 512)`, total length `126 + n`. -/
def buildDataPacket (univ sequence : Nat) (name cid d : List Nat) : List Nat :=
  let n := min d.length 512
  sacnRootLayer n cid ++ sacnFramingPre n ++ padTo 64 name ++
    sacnFramingPost sequence univ ++ sacnDmpLayer n d

/-- `ParsePacket` from src/sacn/fuzz_test.go (same checks as
`Receiver.handlePacket` in src/sacn/receiver.go). -/
def sacnParsePacket (data : List Nat) : Option (Nat × List Nat) :=
  if data.length < 126 then none
  else if ¬(byteAt data 4 = 0x41 ∧ byteAt data 5 = 0x53 ∧ byteAt data 6 = 0x43) then none
  else if be32At data 18 ≠ 4 then none
  else if be32At data 40 ≠ 2 then none
  else if byteAt data 117 ≠ 2 then none
  else if be16At data 123 < 1 then none
  else if data.length < 126 + min (be16At data 123 - 1) 512 then none
  else some (be16At data 113,
    (data.drop 126).take (min (be16At data 123 - 1) 512) ++
      List.replicate (512 - min (be16At data 123 - 1) 512) 0)

/-! ## Universe / address model (src/config/config.go) -/

inductive Protocol where
  | artnet
  | sacn
deriving DecidableEq, Repr

/-- `config.Universe`: protocol plus 16-bit universe number. -/
structure ConfUniverse where
  protocol : Protocol
  number : Nat
deriving DecidableEq, Repr

/-- `makeUniverse`: per-protocol range validation. -/
def makeUniverse (proto : Protocol) (n : Nat) : Option ConfUniverse :=
  match proto with
  | .artnet => if n > 0x7FFF then none else some ⟨.artnet, n⟩
  | .sacn => if n < 1 ∨ n > 63999 then none else some ⟨.sacn, n⟩

/-! ## Remap engine (src/remap/engine.go) -/

/-- A DMX frame: byte value at each channel index (indices ≥ 512 are
never read or written by the engine). -/
def Frame : Type := Nat → Nat

/-- `config.NormalizedMapping`: 0-indexed channels. -/
structure NormalizedMapping where
  from_u : ConfUniverse
  fromChan : Nat
  to_u : ConfUniverse
  toChan : Nat
  count : Nat
deriving DecidableEq, Repr

structure EngineOutput where
  univ : ConfUniverse
  data : Frame

/-- Engine: the mapping list plus the persistent per-destination merge
buffers (`state`, zero-initialised). -/
structure Engine where
  mappings : List NormalizedMapping
  state : ConfUniverse → Frame

/-- `NewEngine`: all merge buffers start as zeroed 512-byte arrays. -/
def newEngine (ms : List NormalizedMapping) : Engine :=
  ⟨ms, fun _ => fun _ => 0⟩

/-- The body of the copy loop in `Remap` for one mapping `m`: write
`i`-th byte if both channel indices are below 512. -/
def remapStep (m : NormalizedMapping) (srcData : Frame) (b : Frame) (i : Nat) : Frame :=
  if m.fromChan + i < 512 ∧ m.toChan + i < 512 then
    Function.update b (m.toChan + i) (srcData (m.fromChan + i))
  else b

/-- The copy loop of `Remap` applied to one mapping: for
`i = 0 … count-1`, copy `srcData[fromChan+i]` to `buffer[toChan+i]`. -/
def applyMapping (m : NormalizedMapping) (srcData : Frame) (buf : Frame) : Frame :=
  (List.range m.count).foldl (remapStep m srcData) buf

/-- The mappings with source universe `src`, in input order (Go builds
`bySource` by appending while iterating over the mapping list). -/
def bySource (ms : List NormalizedMapping) (src : ConfUniverse) : List NormalizedMapping :=
  ms.filter (fun m => m.from_u = src)

/-- `Engine.Remap` from src/remap/engine.go: no-op (nil result) for an
unmatched source; otherwise apply each matching mapping to the
destination merge buffer and return a snapshot of every affected
destination buffer. -/
def remap (e : Engine) (src : ConfUniverse) (srcData : Frame) : Engine × List EngineOutput :=
  let ms := bySource e.mappings src
  if ms.isEmpty then (e, [])
  else
    let st := ms.foldl
      (fun st m => Function.update st m.to_u (applyMapping m srcData (st m.to_u))) e.state
    let outs := (ms.map (·.to_u)).dedup.map (fun u => ⟨u, st u⟩)
    ({ e with state := st }, outs)

/-! ## String parsing (src/config/config.go)

Strings are modelled as `List Char`. -/

/-- One decimal digit's value, `none` for a non-digit character. -/
def digVal (c : Char) : Option Nat :=
  if '0' ≤ c ∧ c ≤ '9' then some (c.toNat - '0'.toNat) else none

/-- Accumulate decimal digits; any non-digit is a syntax error. -/
def digitsAcc : Nat → List Char → Option Nat
  | acc, [] => some acc
  | acc, c :: cs =>
    match digVal c with
    | some d => digitsAcc (acc * 10 + d) cs
    | none => none

/-- Parse a non-empty run of decimal digits. -/
def parseDigits (s : List Char) : Option Nat :=
  if s = [] then none else digitsAcc 0 s

/-- Largest value `strconv.Atoi` accepts (int64 max). -/
def goMaxInt : Nat := 9223372036854775807

/-- `strconv.Atoi`: optional sign, then decimal digits; errors on an
empty body, a non-digit, or 64-bit overflow. -/
def goAtoi (s : List Char) : Option Int :=
  match s with
  | [] => none
  | c :: rest =>
    if c = '-' then
      (parseDigits rest).bind fun v =>
        if v ≤ goMaxInt + 1 then some (-(v : Int)) else none
    else if c = '+' then
      (parseDigits rest).bind fun v =>
        if v ≤ goMaxInt then some ((v : Int)) else none
    else
      (parseDigits s).bind fun v =>
        if v ≤ goMaxInt then some ((v : Int)) else none

/-- `strings.Split(s, ".")`. -/
def splitDots : List Char → List (List Char)
  | [] => [[]]
  | c :: cs =>
    if c = '.' then [] :: splitDots cs
    else
      match splitDots cs with
      | h :: t => (c :: h) :: t
      | [] => [[c]]

/-- Split at the FIRST occurrence of `sep` (`strings.Index`-based
split in `parseChannelRange`): `none` when `sep` does not occur. -/
def splitOnFirst (sep : Char) : List Char → Option (List Char × List Char)
  | [] => none
  | c :: cs =>
    if c = sep then some ([], cs)
    else (splitOnFirst sep cs).map (fun p => (c :: p.1, p.2))

/-- `splitAddr`: split at the LAST ':' ; `(s, "")` when there is none. -/
def splitAddrAux : List Char → Option (List Char × List Char)
  | [] => none
  | c :: cs =>
    match splitAddrAux cs with
    | some p => some (c :: p.1, p.2)
    | none => if c = ':' then some ([], cs) else none

def splitAddr (s : List Char) : List Char × List Char :=
  (splitAddrAux s).getD (s, [])

def artnetPfx : List Char := ['a', 'r', 't', 'n', 'e', 't', ':']
def sacnPfx : List Char := ['s', 'a', 'c', 'n', ':']

/-- `splitProtoPrefix`. -/
def splitProtoPfx (s : List Char) : Option (Protocol × List Char) :=
  if s.take 7 = artnetPfx then some (.artnet, s.drop 7)
  else if s.take 5 = sacnPfx then some (.sacn, s.drop 5)
  else none

/-- Whitespace characters recognised by `strings.TrimSpace` (ASCII
subset; all strings in this development are ASCII). -/
def isSpaceChar (c : Char) : Bool :=
  c = ' ' ∨ c = '\t' ∨ c = '\n' ∨ c = '\r'

/-- `strings.TrimSpace`. -/
def trimSpace (s : List Char) : List Char :=
  ((s.dropWhile isSpaceChar).reverse.dropWhile isSpaceChar).reverse

/-- The combiner for the dotted `N.S.U` form:
`uint16(net&0x7F)<<8 | uint16(subnet&0x0F)<<4 | uint16(universe&0x0F)`
(bitwise AND with `2^k - 1` on a two's-complement int is `emod 2^k`,
and the three bit fields are disjoint, so `|||` is `+`). -/
def combineNSU (net subnet uni : Int) : Nat :=
  (net.emod 128).toNat * 256 + (subnet.emod 16).toNat * 16 + (uni.emod 16).toNat

/-- `parseUniverseNumber` from src/config/config.go: dotted `N.S.U`
form (artnet only, exactly 3 parts), else a decimal number truncated
to uint16 (`uint16(u)` is `emod 2^16`). -/
def parseUniverseNumber (s : List Char) (proto : Protocol) : Option Nat :=
  if '.' ∈ s then
    if proto = .sacn then none
    else
      match splitDots s with
      | [p1, p2, p3] =>
        (goAtoi p1).bind fun net =>
        (goAtoi p2).bind fun subnet =>
        (goAtoi p3).bind fun uni =>
        some (combineNSU net subnet uni)
      | _ => none
  else
    (goAtoi s).map fun u => (u.emod 65536).toNat

/-- `ParseUniverse` (`splitProtoPrefix` then `NewUniverse` on the
string body, which is `parseUniverseNumber` then `makeUniverse`). -/
def parseUniverse (s : List Char) : Option ConfUniverse :=
  (splitProtoPfx s).bind fun p =>
  (parseUniverseNumber p.2 p.1).bind fun n =>
  makeUniverse p.1 n

/-- `FromAddr`: channel fields are Go `int`s (1-indexed, unvalidated
by the parser). -/
structure FromAddr where
  univ : ConfUniverse
  channelStart : Int
  channelEnd : Int
deriving DecidableEq, Repr

structure ToAddr where
  univ : ConfUniverse
  channelStart : Int
deriving DecidableEq, Repr

/-- `parseChannelRange`: `A-B`, `A-` (end 512), or single `N`; the
only check is `start ≤ end`. -/
def parseChannelRange (spec : List Char) : Option (Int × Int) :=
  match splitOnFirst '-' spec with
  | some (pre, post) =>
    (goAtoi pre).bind fun a =>
    (if post = [] then some (512 : Int) else goAtoi post).bind fun b =>
    if a > b then none else some (a, b)
  | none =>
    (goAtoi spec).bind fun a =>
    if a > a then none else some (a, a)

/-- `FromAddr.parse`. -/
def parseFromAddr (s : List Char) : Option FromAddr :=
  (splitProtoPfx (trimSpace s)).bind fun p =>
  let uc := splitAddr p.2
  (parseUniverseNumber uc.1 p.1).bind fun n =>
  (makeUniverse p.1 n).bind fun u =>
  if uc.2 = [] then some ⟨u, 1, 512⟩
  else (parseChannelRange uc.2).map fun ab => ⟨u, ab.1, ab.2⟩

/-- `ToAddr.parse`: the channel spec must not contain '-' and is a
single number; empty spec means channel 1. -/
def parseToAddr (s : List Char) : Option ToAddr :=
  (splitProtoPfx (trimSpace s)).bind fun p =>
  let uc := splitAddr p.2
  (parseUniverseNumber uc.1 p.1).bind fun n =>
  (makeUniverse p.1 n).bind fun u =>
  if uc.2 = [] then some ⟨u, 1⟩
  else if '-' ∈ uc.2 then none
  else (goAtoi uc.2).map fun ch => ⟨u, ch⟩

/-! ## Printing (String methods in src/config/config.go) -/

/-- The decimal digit character for `k ≤ 9`. -/
def digitChar (k : Nat) : Char :=
  match k with
  | 0 => '0' | 1 => '1' | 2 => '2' | 3 => '3' | 4 => '4'
  | 5 => '5' | 6 => '6' | 7 => '7' | 8 => '8' | _ => '9'

/-- Decimal digits of a natural number (`fmt %d`). -/
def natRepr (n : Nat) : List Char :=
  if h : n < 10 then [digitChar n]
  else natRepr (n / 10) ++ [digitChar (n % 10)]
decreasing_by exact Nat.div_lt_self (by omega) (by omega)

/-- `fmt %d` of a Go int. -/
def intRepr (n : Int) : List Char :=
  if n < 0 then '-' :: natRepr (-n).toNat else natRepr n.toNat

/-- The printed body of a universe (after the protocol prefix):
`N.S.U` for artnet, the plain number for sacn. -/
def uniBody (u : ConfUniverse) : List Char :=
  match u.protocol with
  | .artnet =>
    natRepr (u.number / 256 % 128) ++ '.' :: natRepr (u.number / 16 % 16) ++
      '.' :: natRepr (u.number % 16)
  | .sacn => natRepr u.number

/-- `Universe.String`: `"artnet:N.S.U"` or `"sacn:<n>"`. -/
def universeStr (u : ConfUniverse) : List Char :=
  match u.protocol with
  | .artnet => artnetPfx ++ uniBody u
  | .sacn => sacnPfx ++ uniBody u

/-- `FromAddr.String`. -/
def fromAddrStr (a : FromAddr) : List Char :=
  if a.channelStart = 1 ∧ a.channelEnd = 512 then universeStr a.univ
  else if a.channelStart = a.channelEnd then
    universeStr a.univ ++ ':' :: intRepr a.channelStart
  else
    universeStr a.univ ++ ':' :: intRepr a.channelStart ++ '-' :: intRepr a.channelEnd

/-- `ToAddr.String`. -/
def toAddrStr (a : ToAddr) : List Char :=
  if a.channelStart = 1 then universeStr a.univ
  else universeStr a.univ ++ ':' :: intRepr a.channelStart

/-! ## Configuration load validation (src/config/config.go `Load`) -/

structure Mapping where
  from_a : FromAddr
  to_a : ToAddr
deriving DecidableEq, Repr

/-- The checks `Load` runs on one mapping, in source order; `none`
means the mapping is accepted. -/
inductive MapErr where
  | fromStartRange
  | fromEndRange
  | startGtEnd
  | toStartRange
  | toExceed512
deriving DecidableEq, Repr

def checkMapping (m : Mapping) : Option MapErr :=
  if m.from_a.channelStart < 1 ∨ m.from_a.channelStart > 512 then some .fromStartRange
  else if m.from_a.channelEnd < 1 ∨ m.from_a.channelEnd > 512 then some .fromEndRange
  else if m.from_a.channelStart > m.from_a.channelEnd then some .startGtEnd
  else if m.to_a.channelStart < 1 ∨ m.to_a.channelStart > 512 then some .toStartRange
  else if m.to_a.channelStart + (m.from_a.channelEnd - m.from_a.channelStart + 1) - 1 > 512
    then some .toExceed512
  else none

/-- The mapping-validation loop of `Load`: the first failing mapping's
index (0-based) and error, or `none` when all pass. -/
def loadValidate : List Mapping → Nat → Option (Nat × MapErr)
  | [], _ => none
  | m :: ms, i =>
    match checkMapping m with
    | some e => some (i, e)
    | none => loadValidate ms (i + 1)

/-! ## Art-Net sender sequence counter (src/unnamed/part_004 `SendDMX`) -/

/-- One execution of the sequence-counter critical section in
`Sender.SendDMX`: `seq++` in uint8 arithmetic, then `0` is replaced by
`1`; the result is both the emitted sequence byte and the new stored
counter. -/
def artSendSeq (s : Nat) : Nat :=
  if (s + 1) % 256 = 0 then 1 else (s + 1) % 256

/-- The per-universe counter map (`sequences`), zero-valued initially
(Go map read of a missing key gives 0). -/
def SeqMap : Type := Nat → Nat

/-- `SendDMX` restricted to its sequence-counter effect: returns the
emitted sequence byte and the updated map. -/
def sendDMXStep (st : SeqMap) (u : Nat) : Nat × SeqMap :=
  let q := artSendSeq (st u)
  (q, Function.update st u q)

/-- `n` consecutive `SendDMX` calls for universe `u` starting from a
fresh sender; `.1` is the sequence byte emitted by the `n`-th call
(0 for `n = 0`, before any call). -/
def senderRun (u : Nat) : Nat → Nat × SeqMap
  | 0 => (0, fun _ => 0)
  | n + 1 => sendDMXStep (senderRun u n).2 u

/-! ## Art-Net discovery (src/artnet/discovery.go) -/

/-- `artnet.NewUniverse`: 15-bit universe from net/subnet/universe. -/
def artNewUniverse (net subnet uni : Nat) : Nat :=
  ((net &&& 0x7F) <<< 8) ||| ((subnet &&& 0x0F) <<< 4) ||| (uni &&& 0x0F)

/-- A discovered node. IPs are 4-byte lists. -/
structure DNode where
  ip : List Nat
  port : Nat
  shortName : List Nat
  longName : List Nat
  universes : List Nat
  lastSeen : Nat
  canTransmit : Bool
deriving DecidableEq, Repr

/-- Discovery state: the node map (keyed by source IP) and local IP. -/
structure Discovery where
  nodes : List Nat → Option DNode
  localIP : List Nat

/-- The DMX-capable output universes advertised by one PollReply:
up to 4 ports, a port counts when `portTypes[i] & 0x80 != 0`. -/
def replyUniverses (pkt : PollReplyPacket) : List Nat :=
  (List.range (min pkt.numPortsLo 4)).filterMap fun i =>
    if pkt.portTypes.getD i 0 &&& 0x80 ≠ 0 then
      some (artNewUniverse pkt.netSwitch pkt.subSwitch (pkt.swOut.getD i 0))
    else none

/-- Bytes of a null-padded name field up to the first 0. -/
def takeUntilZero : List Nat → List Nat
  | [] => []
  | b :: bs => if b = 0 then [] else b :: takeUntilZero bs

/-- The universe-accumulation loop of `HandlePollReply`: append each
new universe not already present. -/
def accumUniverses (acc new : List Nat) : List Nat :=
  new.foldl (fun a u => if u ∈ a then a else a ++ [u]) acc

/-- `Discovery.HandlePollReply`: ignore own replies, upsert the node
keyed by source IP, refresh names and `lastSeen`, and union in the
reply's universes. -/
def handlePollReply (d : Discovery) (srcIP : List Nat) (now : Nat)
    (pkt : PollReplyPacket) : Discovery :=
  if srcIP = d.localIP then d
  else
    let node0 := (d.nodes srcIP).getD ⟨srcIP, pkt.port, [], [], [], 0, false⟩
    let node1 : DNode :=
      { node0 with
        shortName := takeUntilZero pkt.shortName
        longName := takeUntilZero pkt.longName
        lastSeen := now
        canTransmit := true
        universes := accumUniverses node0.universes (replyUniverses pkt) }
    { d with nodes := Function.update d.nodes srcIP (some node1) }

/-! ## Claim C1 -/

/-- A 207-byte Art-Net packet: valid identifier, opcode 0x2100
(PollReply, little-endian), zero payload. -/
def c1Input : List Nat := artNetID ++ [0, 0x21] ++ List.replicate 197 0

/-- C1: FALSIFIED BY THE CODE.  The 207-byte minimum enforced by
`parsePollReplyPacket` is not sufficient: on this 207-byte packet with
valid identifier and opcode 0x2100, the decoder's reads of
`data[212]`, `data[213]` and `data[207:211]` are out of bounds, so
`ParsePacket` panics (`.oob`) instead of returning cleanly. -/
theorem claim_C1_pollreply_207_bytes_panics :
    c1Input.length = 207 ∧ c1Input.take 8 = artNetID ∧
    le16At c1Input 8 = 0x2100 ∧ parsePacketArt c1Input = ARes.oob := by
  refine ⟨by decide, by decide, by decide, by decide⟩

/-! ## Claim C5 -/

/-- C5: FALSIFIED BY THE CODE.  `BuildDMXPacket` rounds the odd data
length 1 up to 2 and then slices `data[:2]` out of the 1-byte input
slice, a runtime panic (`.oob`); no packet is built, so the round trip
with `ParsePacket` never happens for odd-length data. -/
theorem claim_C5_builddmx_odd_length_panics :
    buildDMXPacket 0 1 [7] = ARes.oob ∧ ([7] : List Nat).length % 2 = 1 := by
  exact ⟨by decide, by decide⟩

/-! ## Claim C7 -/

/-- An 18-byte ArtDmx packet announcing 2 data bytes it does not
carry: identifier, opcode 0x5000 (LE), version 14, sequence 1,
physical 0, universe 0, declared length 2, no data. -/
def c7Input : List Nat := artNetID ++ [0x00, 0x50] ++ [0, 14, 1, 0, 0, 0, 0, 2]

/-- C7 counterexample: a truncated ArtDmx packet (18 bytes, declared
length 2) is NOT rejected: `ParsePacket` returns a successfully
decoded DMX packet (with all-zero data), not a truncated-packet
error. -/
theorem claim_C7_truncated_dmx_not_error :
    18 ≤ c7Input.length ∧ c7Input.length < 18 + min (be16At c7Input 16) 512 ∧
    parsePacketArt c7Input = ARes.ok (0x5000, .dmx ⟨14, 1, 0, 0, 2, List.replicate 512 0⟩) := by
  refine ⟨by decide, by decide, by decide⟩

/-- C7 as amended: for every ArtDmx payload with at least the 18
header bytes but fewer than `18 + min(declaredLength, 512)` total
bytes, `parseDMXPacket` succeeds with the data array left all-zero
(the truncated data is silently ignored, not reported as an error). -/
theorem claim_C7_amended_truncated_dmx_zero_data (data : List Nat)
    (h18 : 18 ≤ data.length)
    (hshort : data.length < 18 + min (be16At data 16) 512) :
    parseDMXPacket data =
      ARes.ok { protocolVersion := be16At data 10
                sequence := byteAt data 12
                physical := byteAt data 13
                univ := le16At data 14
                length := be16At data 16
                data := List.replicate 512 0 } := by
  unfold parseDMXPacket
  rw [if_neg (by omega), if_neg (by omega)]

/-- Witness for the amended C7 at a concrete 19-byte packet with
declared length 4. -/
theorem claim_C7_amended_witness :
    parseDMXPacket (artNetID ++ [0x00, 0x50] ++ [0, 14, 9, 0, 3, 0, 0, 4, 55]) =
      ARes.ok { protocolVersion := 14, sequence := 9, physical := 0, univ := 3,
                length := 4, data := List.replicate 512 0 } := by
  have h := claim_C7_amended_truncated_dmx_zero_data
    (artNetID ++ [0x00, 0x50] ++ [0, 14, 9, 0, 3, 0, 0, 4, 55]) (by decide) (by decide)
  simpa using h

/-! ## Claim C3 -/

theorem range_foldl_succ (f : Frame → Nat → Frame) (b : Frame) (n : Nat) :
    (List.range (n + 1)).foldl f b = f ((List.range n).foldl f b) n := by
  rw [List.range_succ, List.foldl_append]
  rfl

/-- After running the copy loop over `range n` (`n ≤ count`, channels
in range), every already-written destination byte holds the matching
source byte. -/
theorem applyLoop_get (m : NormalizedMapping) (F buf : Frame)
    (hf : m.fromChan + m.count ≤ 512) (ht : m.toChan + m.count ≤ 512) :
    ∀ n, n ≤ m.count → ∀ i, i < n →
      ((List.range n).foldl (remapStep m F) buf) (m.toChan + i) = F (m.fromChan + i) := by
  intro n
  induction n with
  | zero => intro _ i hi; omega
  | succ n ih =>
    intro hn i hi
    rw [range_foldl_succ]
    have hcond : m.fromChan + n < 512 ∧ m.toChan + n < 512 := by omega
    rw [remapStep, if_pos hcond]
    rcases Nat.lt_succ_iff_lt_or_eq.mp hi with h | h
    · rw [Function.update_noteq (by omega)]
      exact ih (by omega) i h
    · rw [h, Function.update_same]

theorem applyMapping_get (m : NormalizedMapping) (F buf : Frame)
    (hf : m.fromChan + m.count ≤ 512) (ht : m.toChan + m.count ≤ 512)
    (i : Nat) (hi : i < m.count) :
    applyMapping m F buf (m.toChan + i) = F (m.fromChan + i) :=
  applyLoop_get m F buf hf ht m.count le_rfl i hi

/-- C3: for an engine built from a single in-range normalized mapping
and any 512-byte source frame `F`, after `Remap(src, F)` the
destination universe's merge buffer holds `F[fromChan+i]` at
`toChan+i` for every `i < count`, and the returned dirty-output
snapshot is exactly that destination buffer. -/
theorem claim_C3_single_mapping_remap (m : NormalizedMapping)
    (hf : m.fromChan + m.count ≤ 512) (ht : m.toChan + m.count ≤ 512)
    (hc : 1 ≤ m.count) (F : Frame) (i : Nat) (hi : i < m.count) :
    ((remap (newEngine [m]) m.from_u F).1.state m.to_u) (m.toChan + i) =
        F (m.fromChan + i) ∧
      (remap (newEngine [m]) m.from_u F).2 =
        [⟨m.to_u, (remap (newEngine [m]) m.from_u F).1.state m.to_u⟩] := by
  have hms : bySource [m] m.from_u = [m] := by
    simp [bySource]
  have hremap : remap (newEngine [m]) m.from_u F =
      ({ mappings := [m],
         state := Function.update (fun _ => fun _ => 0) m.to_u
           (applyMapping m F (fun _ => 0)) },
       [⟨m.to_u, Function.update (fun _ => fun _ => 0) m.to_u
           (applyMapping m F (fun _ => 0)) m.to_u⟩]) := by
    rw [remap]
    have h1 : (newEngine [m]).mappings = [m] := rfl
    rw [h1, hms]
    rfl
  rw [hremap]
  refine ⟨?_, rfl⟩
  simp only [Function.update_same]
  exact applyMapping_get m F _ hf ht i hi

/-- Witness for C3: mapping `fromChan=3, toChan=10, count=5`, frame
`F j = j + 1`, offset `i = 2`: destination byte 12 equals `F 5`. -/
theorem claim_C3_witness :
    ((remap (newEngine [⟨⟨.artnet, 0⟩, 3, ⟨.artnet, 1⟩, 10, 5⟩]) ⟨.artnet, 0⟩
        (fun j => j + 1)).1.state ⟨.artnet, 1⟩) 12 = 6 :=
  (claim_C3_single_mapping_remap ⟨⟨.artnet, 0⟩, 3, ⟨.artnet, 1⟩, 10, 5⟩
    (by decide) (by decide) (by decide) (fun j => j + 1) 2 (by decide)).1

/-! ## Claim C8 -/

theorem artSendSeq_eq (s : Nat) (hs : s ≤ 255) :
    artSendSeq s = if s = 255 then 1 else s + 1 := by
  unfold artSendSeq
  rcases Nat.lt_or_ge s 255 with h | h
  · rw [Nat.mod_eq_of_lt (by omega), if_neg (by omega), if_neg (by omega)]
  · have : s = 255 := by omega
    subst this
    decide

theorem senderRun_state_self (u n : Nat) :
    (senderRun u (n + 1)).2 u = (senderRun u (n + 1)).1 := by
  simp [senderRun, sendDMXStep, Function.update_same]

theorem senderRun_bounds (u : Nat) : ∀ n, 1 ≤ (senderRun u (n + 1)).1 ∧
    (senderRun u (n + 1)).1 ≤ 255 := by
  intro n
  induction n with
  | zero =>
    constructor <;> simp [senderRun, sendDMXStep, artSendSeq]
  | succ n ih =>
    show 1 ≤ (sendDMXStep (senderRun u (n + 1)).2 u).1 ∧
      (sendDMXStep (senderRun u (n + 1)).2 u).1 ≤ 255
    have hstep : (sendDMXStep (senderRun u (n + 1)).2 u).1 =
        artSendSeq ((senderRun u (n + 1)).1) := by
      rw [sendDMXStep, senderRun_state_self]
    rw [hstep, artSendSeq_eq _ ih.2]
    split
    · omega
    · omega

/-- C8: per-universe Art-Net sender sequence: the first `SendDMX` for
a universe emits 1, each later call emits the previous value plus one
(wrapping 255 back to 1), and the emitted byte is never 0. -/
theorem claim_C8_sender_sequence (u : Nat) :
    (senderRun u 1).1 = 1 ∧
      (∀ n, 1 ≤ n → (senderRun u (n + 1)).1 =
        if (senderRun u n).1 = 255 then 1 else (senderRun u n).1 + 1) ∧
      (∀ n, 1 ≤ n → (senderRun u n).1 ≠ 0) := by
  refine ⟨by simp [senderRun, sendDMXStep, artSendSeq], ?_, ?_⟩
  · intro n hn
    obtain ⟨k, rfl⟩ : ∃ k, n = k + 1 := ⟨n - 1, by omega⟩
    show (sendDMXStep (senderRun u (k + 1)).2 u).1 = _
    rw [sendDMXStep, senderRun_state_self,
      artSendSeq_eq _ (senderRun_bounds u k).2]
  · intro n hn
    obtain ⟨k, rfl⟩ : ∃ k, n = k + 1 := ⟨n - 1, by omega⟩
    have := (senderRun_bounds u k).1
    omega

/-- Witness for C8 at universe 7, call 255 (non-zero sequence). -/
theorem claim_C8_witness : 1 ≤ 255 ∧ (senderRun 7 255).1 ≠ 0 :=
  ⟨by decide, (claim_C8_sender_sequence 7).2.2 255 (by decide)⟩

/-! ## Claim C9 -/

theorem mem_accumUniverses (new : List Nat) :
    ∀ (acc : List Nat) (x : Nat),
      x ∈ accumUniverses acc new ↔ x ∈ acc ∨ x ∈ new := by
  induction new with
  | nil => intro acc x; simp [accumUniverses]
  | cons u us ih =>
    intro acc x
    have hstep : accumUniverses acc (u :: us) =
        accumUniverses (if u ∈ acc then acc else acc ++ [u]) us := rfl
    rw [hstep, ih]
    by_cases h : u ∈ acc
    · rw [if_pos h]
      constructor
      · rintro (hx | hx)
        · exact Or.inl hx
        · exact Or.inr (List.mem_cons_of_mem u hx)
      · rintro (hx | hx)
        · exact Or.inl hx
        · rcases List.mem_cons.mp hx with rfl | hx
          · exact Or.inl h
          · exact Or.inr hx
    · rw [if_neg h]
      simp only [List.mem_append, List.mem_singleton, List.mem_cons]
      tauto

/-- `HandlePollReply` on an IP not yet in the node map creates the
node with that reply's universes. -/
theorem handlePollReply_fresh (d : Discovery) (ip : List Nat) (now : Nat)
    (pkt : PollReplyPacket) (hfresh : d.nodes ip = none) (hip : ip ≠ d.localIP) :
    (handlePollReply d ip now pkt).nodes ip =
        some { ip := ip, port := pkt.port,
               shortName := takeUntilZero pkt.shortName
               longName := takeUntilZero pkt.longName
               lastSeen := now, canTransmit := true
               universes := accumUniverses [] (replyUniverses pkt) } ∧
      (handlePollReply d ip now pkt).localIP = d.localIP ∧
      ∀ ip', ip' ≠ ip → (handlePollReply d ip now pkt).nodes ip' = d.nodes ip' := by
  unfold handlePollReply
  rw [if_neg hip, hfresh]
  refine ⟨Function.update_same _ _ _, rfl, fun ip' h => Function.update_noteq h _ _⟩

/-- `HandlePollReply` on a known IP unions the reply's universes into
the stored node. -/
theorem handlePollReply_existing (d : Discovery) (ip : List Nat) (now : Nat)
    (pkt : PollReplyPacket) (node : DNode) (hn : d.nodes ip = some node)
    (hip : ip ≠ d.localIP) :
    (handlePollReply d ip now pkt).nodes ip =
        some { node with
               shortName := takeUntilZero pkt.shortName
               longName := takeUntilZero pkt.longName
               lastSeen := now, canTransmit := true
               universes := accumUniverses node.universes (replyUniverses pkt) } ∧
      ∀ ip', ip' ≠ ip → (handlePollReply d ip now pkt).nodes ip' = d.nodes ip' := by
  unfold handlePollReply
  rw [if_neg hip, hn]
  refine ⟨Function.update_same _ _ _, fun ip' h => Function.update_noteq h _ _⟩

/-- C9: two consecutive PollReplies from the same (previously unseen,
non-local) IP advertising universe sets `A` and `B` leave a single
node entry for that IP whose universe set is `A ∪ B`; no other map
entry changes, and the reverse arrival order gives the same universe
set. -/
theorem claim_C9_pollreply_accumulation (d : Discovery) (ip : List Nat)
    (n1 n2 n1' n2' : Nat) (p1 p2 : PollReplyPacket)
    (hfresh : d.nodes ip = none) (hip : ip ≠ d.localIP)
    (hdisj : ∀ x, x ∈ replyUniverses p1 → x ∉ replyUniverses p2) :
    (∃ node, (handlePollReply (handlePollReply d ip n1 p1) ip n2 p2).nodes ip = some node ∧
        ∀ x, x ∈ node.universes ↔ (x ∈ replyUniverses p1 ∨ x ∈ replyUniverses p2)) ∧
      (∀ ip', ip' ≠ ip →
        (handlePollReply (handlePollReply d ip n1 p1) ip n2 p2).nodes ip' = d.nodes ip') ∧
      (∃ node, (handlePollReply (handlePollReply d ip n1' p2) ip n2' p1).nodes ip = some node ∧
        ∀ x, x ∈ node.universes ↔ (x ∈ replyUniverses p1 ∨ x ∈ replyUniverses p2)) := by
  obtain ⟨h1, hloc, hother1⟩ := handlePollReply_fresh d ip n1 p1 hfresh hip
  obtain ⟨h2, hother2⟩ :=
    handlePollReply_existing _ ip n2 p2 _ h1 (by rw [hloc]; exact hip)
  obtain ⟨h1', hloc', hother1'⟩ := handlePollReply_fresh d ip n1' p2 hfresh hip
  obtain ⟨h2', hother2'⟩ :=
    handlePollReply_existing _ ip n2' p1 _ h1' (by rw [hloc']; exact hip)
  refine ⟨⟨_, h2, fun x => ?_⟩, fun ip' h => by rw [hother2 ip' h, hother1 ip' h], 
          ⟨_, h2', fun x => ?_⟩⟩
  · rw [mem_accumUniverses, mem_accumUniverses]
    simp [List.not_mem_nil]
  · rw [mem_accumUniverses, mem_accumUniverses]
    simp only [List.not_mem_nil, false_or]
    tauto

/-- Concrete discovery state and PollReply pair for the C9 witness:
two replies from 10.0.0.5 advertising ports for universes {0,1} and
then {2,3}. -/
def c9Disc : Discovery := ⟨fun _ => none, [127, 0, 0, 1]⟩

def c9Reply1 : PollReplyPacket :=
  { numPortsLo := 2, portTypes := [0xC0, 0xC0, 0, 0], swOut := [0, 1, 0, 0] }

def c9Reply2 : PollReplyPacket :=
  { numPortsLo := 2, portTypes := [0xC0, 0xC0, 0, 0], swOut := [2, 3, 0, 0] }

/-- Witness for C9 at the concrete two-reply scenario. -/
theorem claim_C9_witness :
    ∃ node, (handlePollReply (handlePollReply c9Disc [10, 0, 0, 5] 11 c9Reply1)
        [10, 0, 0, 5] 22 c9Reply2).nodes [10, 0, 0, 5] = some node ∧
      ∀ x, x ∈ node.universes ↔
        (x ∈ replyUniverses c9Reply1 ∨ x ∈ replyUniverses c9Reply2) := by
  have hA : replyUniverses c9Reply1 = [0, 1] := by decide
  have hB : replyUniverses c9Reply2 = [2, 3] := by decide
  exact (claim_C9_pollreply_accumulation c9Disc [10, 0, 0, 5] 11 22 33 44
    c9Reply1 c9Reply2 rfl (by decide)
    (by intro x hx
        rw [hA] at hx
        rw [hB]
        rcases List.mem_cons.mp hx with rfl | hx
        · decide
        · rcases List.mem_cons.mp hx with rfl | hx
          · decide
          · exact absurd hx (List.not_mem_nil x))).1

/-! ## Claim C4 -/

theorem getD_drop (l : List Nat) : ∀ (k i : Nat), (l.drop k).getD i 0 = l.getD (k + i) 0 := by
  induction l with
  | nil => intro k i; simp
  | cons x xs ih =>
    intro k i
    cases k with
    | zero => simp
    | succ k =>
      show (xs.drop k).getD i 0 = (x :: xs).getD (k + 1 + i) 0
      have h : k + 1 + i = (k + i) + 1 := by omega
      rw [h, List.getD_cons_succ]
      exact ih k i

theorem byteAt_of_drop {l t : List Nat} {k : Nat} (i j : Nat) (h : l.drop k = t)
    (hik : k + i = j) : byteAt l j = byteAt t i := by
  rw [byteAt, byteAt, ← h, ← hik, getD_drop]

theorem drop_append_len {a b : List Nat} {k : Nat} (h : a.length = k) :
    (a ++ b).drop k = b := by
  rw [← h, List.drop_left]

theorem take_append_len {a b : List Nat} {k : Nat} (h : a.length = k) :
    (a ++ b).take k = a := by
  rw [← h, List.take_left]

theorem drop_chunk {l c r : List Nat} {k : Nat} (m j : Nat) (h : l.drop k = c ++ r)
    (hc : c.length = m) (hj : k + m = j) : l.drop j = r := by
  rw [← hj, ← List.drop_drop, h, drop_append_len hc]

/-- C4: sACN codec round trip.  For every universe `u < 2^16`,
sequence byte, source name, 16-byte CID and data slice `d`, decoding
the packet built by `BuildDataPacket` succeeds and yields universe `u`
and a 512-byte DMX frame whose first `min(len d, 512)` bytes equal the
corresponding prefix of `d`. -/
theorem claim_C4_sacn_roundtrip (u seq : Nat) (name cid d : List Nat)
    (hu : u < 65536) (hcid : cid.length = 16) :
    sacnParsePacket (buildDataPacket u seq name cid d) =
        some (u, d.take (min d.length 512) ++
          List.replicate (512 - min d.length 512) 0) ∧
      (d.take (min d.length 512) ++
          List.replicate (512 - min d.length 512) 0).length = 512 ∧
      (d.take (min d.length 512) ++
          List.replicate (512 - min d.length 512) 0).take (min d.length 512) =
        d.take (min d.length 512) := by
  set n := min d.length 512 with hn
  have hn512 : n ≤ 512 := Nat.min_le_right _ _
  have hnd : n ≤ d.length := Nat.min_le_left _ _
  set P := buildDataPacket u seq name cid d with hPdef
  have hP0 : P = (u16be 0x10 ++ u16be 0) ++ (acnPid ++
      ((u16be (0x7000 ||| (126 + n - 16)) ++ u32be 4) ++ (cid ++
        (sacnFramingPre n ++ (padTo 64 name ++
          (sacnFramingPost seq u ++ sacnDmpLayer n d)))))) := by
    simp only [hPdef, buildDataPacket, sacnRootLayer, ← hn, List.append_assoc]
  have h0 : P.drop 0 = (u16be 0x10 ++ u16be 0) ++ (acnPid ++
      ((u16be (0x7000 ||| (126 + n - 16)) ++ u32be 4) ++ (cid ++
        (sacnFramingPre n ++ (padTo 64 name ++
          (sacnFramingPost seq u ++ sacnDmpLayer n d)))))) := by
    rw [List.drop_zero]
    exact hP0
  have h4 : P.drop 4 = acnPid ++
      ((u16be (0x7000 ||| (126 + n - 16)) ++ u32be 4) ++ (cid ++
        (sacnFramingPre n ++ (padTo 64 name ++
          (sacnFramingPost seq u ++ sacnDmpLayer n d))))) :=
    drop_chunk 4 4 h0 (by simp [u16be]) (by norm_num)
  have h16 : P.drop 16 = (u16be (0x7000 ||| (126 + n - 16)) ++ u32be 4) ++ (cid ++
      (sacnFramingPre n ++ (padTo 64 name ++
        (sacnFramingPost seq u ++ sacnDmpLayer n d)))) :=
    drop_chunk 12 16 h4 (by simp [acnPid]) (by norm_num)
  have h16' : P.drop 16 = u16be (0x7000 ||| (126 + n - 16)) ++ (u32be 4 ++ (cid ++
      (sacnFramingPre n ++ (padTo 64 name ++
        (sacnFramingPost seq u ++ sacnDmpLayer n d))))) := by
    rw [h16]
    simp only [List.append_assoc]
  have h18 : P.drop 18 = u32be 4 ++ (cid ++
      (sacnFramingPre n ++ (padTo 64 name ++
        (sacnFramingPost seq u ++ sacnDmpLayer n d)))) :=
    drop_chunk 2 18 h16' (by simp [u16be]) (by norm_num)
  have h22 : P.drop 22 = cid ++ (sacnFramingPre n ++ (padTo 64 name ++
      (sacnFramingPost seq u ++ sacnDmpLayer n d))) :=
    drop_chunk 4 22 h18 (by simp [u32be]) (by norm_num)
  have h38 : P.drop 38 = sacnFramingPre n ++ (padTo 64 name ++
      (sacnFramingPost seq u ++ sacnDmpLayer n d)) :=
    drop_chunk 16 38 h22 hcid (by norm_num)
  have h44 : P.drop 44 = padTo 64 name ++
      (sacnFramingPost seq u ++ sacnDmpLayer n d) :=
    drop_chunk 6 44 h38 (by simp [sacnFramingPre, u16be, u32be]) (by norm_num)
  have h108 : P.drop 108 = sacnFramingPost seq u ++ sacnDmpLayer n d :=
    drop_chunk 64 108 h44 (padTo_length 64 name) (by norm_num)
  have h115 : P.drop 115 = sacnDmpLayer n d :=
    drop_chunk 7 115 h108 (by simp [sacnFramingPost, u16be]) (by norm_num)
  have hsplitDmp : P.drop 115 = (u16be (0x7000 ||| (11 + n)) ++ ([2, 0xa1] ++
      (u16be 0 ++ (u16be 1 ++ (u16be (n + 1) ++ [0]))))) ++ d.take n := by
    rw [h115]
    simp only [sacnDmpLayer, List.append_assoc]
  have h126 : P.drop 126 = d.take n :=
    drop_chunk 11 126 hsplitDmp (by simp [u16be]) (by norm_num)
  have hlen : P.length = 126 + n := by
    rw [hP0]
    simp only [List.length_append, u16be, u32be, acnPid, hcid, sacnFramingPre,
      sacnFramingPost, sacnDmpLayer, List.length_take,
      List.length_cons, List.length_nil, padTo_length]
    omega
  have hid4 : byteAt P 4 = 0x41 := by
    rw [byteAt_of_drop 0 4 h4 (by norm_num)]
    rfl
  have hid5 : byteAt P 5 = 0x53 := by
    rw [byteAt_of_drop 1 5 h4 (by norm_num)]
    rfl
  have hid6 : byteAt P 6 = 0x43 := by
    rw [byteAt_of_drop 2 6 h4 (by norm_num)]
    rfl
  have hroot : be32At P 18 = 4 := by
    simp only [be32At, Nat.reduceAdd]
    rw [byteAt_of_drop 0 18 h18 (by norm_num),
      byteAt_of_drop 1 19 h18 (by norm_num), byteAt_of_drop 2 20 h18 (by norm_num),
      byteAt_of_drop 3 21 h18 (by norm_num)]
    have e0 : byteAt (u32be 4 ++ (cid ++ (sacnFramingPre n ++ (padTo 64 name ++
        (sacnFramingPost seq u ++ sacnDmpLayer n d))))) 0 = 0 := rfl
    have e1 : byteAt (u32be 4 ++ (cid ++ (sacnFramingPre n ++ (padTo 64 name ++
        (sacnFramingPost seq u ++ sacnDmpLayer n d))))) 1 = 0 := rfl
    have e2 : byteAt (u32be 4 ++ (cid ++ (sacnFramingPre n ++ (padTo 64 name ++
        (sacnFramingPost seq u ++ sacnDmpLayer n d))))) 2 = 0 := rfl
    have e3 : byteAt (u32be 4 ++ (cid ++ (sacnFramingPre n ++ (padTo 64 name ++
        (sacnFramingPost seq u ++ sacnDmpLayer n d))))) 3 = 4 := rfl
    rw [e0, e1, e2, e3]
  have hfr : be32At P 40 = 2 := by
    simp only [be32At, Nat.reduceAdd]
    rw [byteAt_of_drop 2 40 h38 (by norm_num),
      byteAt_of_drop 3 41 h38 (by norm_num), byteAt_of_drop 4 42 h38 (by norm_num),
      byteAt_of_drop 5 43 h38 (by norm_num)]
    have e2 : byteAt (sacnFramingPre n ++ (padTo 64 name ++
        (sacnFramingPost seq u ++ sacnDmpLayer n d))) 2 = 0 := rfl
    have e3 : byteAt (sacnFramingPre n ++ (padTo 64 name ++
        (sacnFramingPost seq u ++ sacnDmpLayer n d))) 3 = 0 := rfl
    have e4 : byteAt (sacnFramingPre n ++ (padTo 64 name ++
        (sacnFramingPost seq u ++ sacnDmpLayer n d))) 4 = 0 := rfl
    have e5 : byteAt (sacnFramingPre n ++ (padTo 64 name ++
        (sacnFramingPost seq u ++ sacnDmpLayer n d))) 5 = 2 := rfl
    rw [e2, e3, e4, e5]
  have huniv : be16At P 113 = u := by
    simp only [be16At, Nat.reduceAdd]
    rw [byteAt_of_drop 5 113 h108 (by norm_num),
      byteAt_of_drop 6 114 h108 (by norm_num)]
    have e1 : byteAt (sacnFramingPost seq u ++ sacnDmpLayer n d) 5 = u / 256 % 256 := rfl
    have e2 : byteAt (sacnFramingPost seq u ++ sacnDmpLayer n d) 6 = u % 256 := rfl
    rw [e1, e2]
    omega
  have hdmpv : byteAt P 117 = 2 := by
    rw [byteAt_of_drop 2 117 h115 (by norm_num)]
    rfl
  have hprop : be16At P 123 = n + 1 := by
    simp only [be16At, Nat.reduceAdd]
    rw [byteAt_of_drop 8 123 h115 (by norm_num),
      byteAt_of_drop 9 124 h115 (by norm_num)]
    have e1 : byteAt (sacnDmpLayer n d) 8 = (n + 1) / 256 % 256 := rfl
    have e2 : byteAt (sacnDmpLayer n d) 9 = (n + 1) % 256 := rfl
    rw [e1, e2]
    omega
  have htklen : (d.take n).length = n := by
    simp only [List.length_take]
    omega
  refine ⟨?_, ?_, ?_⟩
  · rw [sacnParsePacket, if_neg (by omega), if_neg (not_not_intro ⟨hid4, hid5, hid6⟩),
      if_neg (not_not_intro hroot), if_neg (not_not_intro hfr),
      if_neg (not_not_intro hdmpv), if_neg (by rw [hprop]; omega),
      if_neg (by rw [hprop, hlen]; omega), huniv, hprop, h126]
    have hmin : min (n + 1 - 1) 512 = n := by omega
    rw [hmin, List.take_of_length_le (le_of_eq htklen)]
  · simp only [List.length_append, List.length_replicate, htklen]
    omega
  · exact take_append_len htklen

/-- Witness for C4 at universe 300, sequence 7, empty name, zero CID
and the 3-byte frame [9, 8, 7]. -/
theorem claim_C4_witness :
    sacnParsePacket (buildDataPacket 300 7 [] (List.replicate 16 0) [9, 8, 7]) =
      some (300, ([9, 8, 7] : List Nat).take (min ([9, 8, 7] : List Nat).length 512) ++
        List.replicate (512 - min ([9, 8, 7] : List Nat).length 512) 0) :=
  (claim_C4_sacn_roundtrip 300 7 [] (List.replicate 16 0) [9, 8, 7]
    (by decide) (by decide)).1

/-! ## Claim C2 -/

theorem take_append_of_length (a : List Char) {b : List Char} (k : Nat)
    (h : a.length = k) : (a ++ b).take k = a := by
  rw [← h, List.take_left]

theorem drop_append_of_length (a : List Char) {b : List Char} (k : Nat)
    (h : a.length = k) : (a ++ b).drop k = b := by
  rw [← h, List.drop_left]

theorem digitsAcc_mem : ∀ (s : List Char) (acc v : Nat), digitsAcc acc s = some v →
    ∀ c ∈ s, '0' ≤ c ∧ c ≤ '9' := by
  intro s
  induction s with
  | nil => intro acc v _ c hc; exact absurd hc (List.not_mem_nil c)
  | cons x xs ih =>
    intro acc v h c hc
    rw [digitsAcc] at h
    rcases hd : digVal x with _ | d
    · rw [hd] at h; exact absurd h (by simp)
    · rw [hd] at h
      have hx : '0' ≤ x ∧ x ≤ '9' := by
        by_contra hcon
        rw [digVal, if_neg hcon] at hd
        exact absurd hd (by simp)
      rcases List.mem_cons.mp hc with rfl | hc
      · exact hx
      · exact ih _ _ h c hc

theorem parseDigits_mem (s : List Char) (v : Nat) (h : parseDigits s = some v) :
    ∀ c ∈ s, '0' ≤ c ∧ c ≤ '9' := by
  rw [parseDigits] at h
  split at h
  · exact absurd h (by simp)
  · exact digitsAcc_mem s 0 v h

theorem goAtoi_not_dot (s : List Char) (n : Int) (h : goAtoi s = some n) : '.' ∉ s := by
  intro hmem
  rcases s with _ | ⟨c, rest⟩
  · exact absurd h (by simp [goAtoi])
  · rw [goAtoi] at h
    split_ifs at h with h1 h2
    · rcases ho : parseDigits rest with _ | v
      · rw [ho] at h; exact absurd h (by simp)
      · rcases List.mem_cons.mp hmem with hx | hx
        · subst h1; exact absurd hx.symm (by decide)
        · have := parseDigits_mem rest v ho '.' hx
          exact absurd this (by decide)
    · rcases ho : parseDigits rest with _ | v
      · rw [ho] at h; exact absurd h (by simp)
      · rcases List.mem_cons.mp hmem with hx | hx
        · subst h2; exact absurd hx.symm (by decide)
        · have := parseDigits_mem rest v ho '.' hx
          exact absurd this (by decide)
    · rcases ho : parseDigits (c :: rest) with _ | v
      · rw [ho] at h; exact absurd h (by simp)
      · have := parseDigits_mem _ v ho '.' hmem
        exact absurd this (by decide)

theorem splitProtoPfx_artnet (s : List Char) :
    splitProtoPfx (artnetPfx ++ s) = some (.artnet, s) := by
  have h1 : (artnetPfx ++ s).take 7 = artnetPfx := take_append_of_length artnetPfx 7 rfl
  have h2 : (artnetPfx ++ s).drop 7 = s := drop_append_of_length artnetPfx 7 rfl
  rw [splitProtoPfx, if_pos h1, h2]

theorem splitProtoPfx_sacn (s : List Char) :
    splitProtoPfx (sacnPfx ++ s) = some (.sacn, s) := by
  have hne : (sacnPfx ++ s).take 7 ≠ artnetPfx := by
    have : (sacnPfx ++ s).take 7 = 's' :: 'a' :: 'c' :: 'n' :: ':' :: s.take 2 := rfl
    rw [this, artnetPfx]
    simp
  have h1 : (sacnPfx ++ s).take 5 = sacnPfx := take_append_of_length sacnPfx 5 rfl
  have h2 : (sacnPfx ++ s).drop 5 = s := drop_append_of_length sacnPfx 5 rfl
  rw [splitProtoPfx, if_neg hne, if_pos h1, h2]

theorem parseUniverseNumber_decimal (s : List Char) (n : Int) (proto : Protocol)
    (h : goAtoi s = some n) :
    parseUniverseNumber s proto = some (n.emod 65536).toNat := by
  rw [parseUniverseNumber, if_neg (goAtoi_not_dot s n h), h]
  rfl

/-- C2 as amended: `ParseUniverse` truncates the decimal body to
uint16 BEFORE range-checking.  For every decimal string `s` that Go's
`Atoi` parses to integer `n`, `ParseUniverse("artnet:"+s)` succeeds
iff `n mod 2^16 ≤ 32767`, and `ParseUniverse("sacn:"+s)` succeeds iff
`1 ≤ n mod 2^16 ≤ 63999`. -/
theorem claim_C2_amended_mod65536 (s : List Char) (n : Int) (h : goAtoi s = some n) :
    ((parseUniverse (artnetPfx ++ s)).isSome ↔ n.emod 65536 ≤ 32767) ∧
      ((parseUniverse (sacnPfx ++ s)).isSome ↔
        (1 ≤ n.emod 65536 ∧ n.emod 65536 ≤ 63999)) := by
  have hm : ((n.emod 65536).toNat : Int) = n.emod 65536 :=
    Int.toNat_of_nonneg (Int.emod_nonneg n (by norm_num))
  constructor
  · rw [parseUniverse, splitProtoPfx_artnet]
    show ((parseUniverseNumber s .artnet).bind (makeUniverse .artnet)).isSome ↔ _
    rw [parseUniverseNumber_decimal s n .artnet h]
    show (makeUniverse .artnet (n.emod 65536).toNat).isSome ↔ _
    rw [makeUniverse]
    split_ifs with hgt
    · simp only [Option.isSome_none, Bool.false_eq_true, false_iff]
      omega
    · simp only [Option.isSome_some, true_iff]
      omega
  · rw [parseUniverse, splitProtoPfx_sacn]
    show ((parseUniverseNumber s .sacn).bind (makeUniverse .sacn)).isSome ↔ _
    rw [parseUniverseNumber_decimal s n .sacn h]
    show (makeUniverse .sacn (n.emod 65536).toNat).isSome ↔ _
    rw [makeUniverse]
    split_ifs with hlt
    · simp only [Option.isSome_none, Bool.false_eq_true, false_iff]
      omega
    · simp only [Option.isSome_some, true_iff]
      omega

/-- C2 counterexample: `"artnet:65536"` denotes 65536 > 32767, which
the claim says must be rejected with a range error, yet `ParseUniverse`
accepts it (as universe 0) because `uint16(65536) = 0`. -/
theorem claim_C2_counterexample :
    parseUniverse "artnet:65536".toList = some ⟨.artnet, 0⟩ ∧ (65536 : Nat) > 32767 := by
  constructor
  · rfl
  · decide

/-- Witness for the amended C2 at the decimal body "123". -/
theorem claim_C2_witness :
    ((parseUniverse (artnetPfx ++ "123".toList)).isSome ↔
        (123 : Int).emod 65536 ≤ 32767) ∧
      ((parseUniverse (sacnPfx ++ "123".toList)).isSome ↔
        (1 ≤ (123 : Int).emod 65536 ∧ (123 : Int).emod 65536 ≤ 63999)) :=
  claim_C2_amended_mod65536 "123".toList 123 (by decide)

/-! ## Claim C10 -/

theorem digitChar_bounds (k : Nat) (hk : k ≤ 9) :
    '0' ≤ digitChar k ∧ digitChar k ≤ '9' := by
  interval_cases k <;> decide

theorem digVal_digitChar (k : Nat) (hk : k ≤ 9) : digVal (digitChar k) = some k := by
  interval_cases k <;> decide

theorem natRepr_ne_nil (n : Nat) : natRepr n ≠ [] := by
  rw [natRepr]
  split <;> simp

theorem natRepr_digits (n : Nat) : ∀ c ∈ natRepr n, '0' ≤ c ∧ c ≤ '9' := by
  induction n using Nat.strong_induction_on with
  | _ n ih =>
    intro c hc
    rw [natRepr] at hc
    split at hc
    · rcases List.mem_singleton.mp hc with rfl
      exact digitChar_bounds n (by omega)
    · rcases List.mem_append.mp hc with hm | hm
      · exact ih (n / 10) (Nat.div_lt_self (by omega) (by omega)) c hm
      · rcases List.mem_singleton.mp hm with rfl
        exact digitChar_bounds (n % 10) (by omega)

theorem digit_ne (c x : Char) (h : '0' ≤ c ∧ c ≤ '9') (hx : ¬('0' ≤ x ∧ x ≤ '9')) :
    c ≠ x := by
  intro he
  subst he
  exact hx h

theorem natRepr_no_dash (n : Nat) : '-' ∉ natRepr n := fun h =>
  absurd (natRepr_digits n '-' h) (by decide)

theorem natRepr_no_dot (n : Nat) : '.' ∉ natRepr n := fun h =>
  absurd (natRepr_digits n '.' h) (by decide)

theorem natRepr_no_colon (n : Nat) : ':' ∉ natRepr n := fun h =>
  absurd (natRepr_digits n ':' h) (by decide)

theorem digitsAcc_append (l1 l2 : List Char) : ∀ acc : Nat,
    digitsAcc acc (l1 ++ l2) = match digitsAcc acc l1 with
      | some v => digitsAcc v l2
      | none => none := by
  induction l1 with
  | nil => intro acc; rfl
  | cons c cs ih =>
    intro acc
    show digitsAcc acc (c :: (cs ++ l2)) = _
    rw [digitsAcc, digitsAcc]
    rcases hd : digVal c with _ | d
    · rfl
    · exact ih _

theorem digitsAcc_natRepr (n : Nat) : digitsAcc 0 (natRepr n) = some n := by
  induction n using Nat.strong_induction_on with
  | _ n ih =>
    rw [natRepr]
    split
    · rw [digitsAcc, digVal_digitChar n (by omega)]
      show digitsAcc (0 * 10 + n) [] = some n
      rw [digitsAcc]
      norm_num
    · rw [digitsAcc_append, ih (n / 10) (Nat.div_lt_self (by omega) (by omega))]
      show digitsAcc (n / 10) [digitChar (n % 10)] = some n
      rw [digitsAcc, digVal_digitChar (n % 10) (by omega)]
      show digitsAcc (n / 10 * 10 + n % 10) [] = some n
      rw [digitsAcc]
      congr 1
      omega

theorem parseDigits_natRepr (n : Nat) : parseDigits (natRepr n) = some n := by
  rw [parseDigits, if_neg (natRepr_ne_nil n), digitsAcc_natRepr]

theorem natRepr_head_digit (n : Nat) :
    ∃ c rest, natRepr n = c :: rest ∧ ('0' ≤ c ∧ c ≤ '9') := by
  rcases hr : natRepr n with _ | ⟨c, rest⟩
  · exact absurd hr (natRepr_ne_nil n)
  · exact ⟨c, rest, rfl, natRepr_digits n c (hr ▸ List.mem_cons_self c rest)⟩

theorem goAtoi_natRepr (n : Nat) (h : n ≤ goMaxInt) :
    goAtoi (natRepr n) = some (n : Int) := by
  obtain ⟨c, rest, hr, hc⟩ := natRepr_head_digit n
  rw [hr, goAtoi, if_neg (digit_ne c '-' hc (by decide)),
    if_neg (digit_ne c '+' hc (by decide)), ← hr, parseDigits_natRepr]
  show (if n ≤ goMaxInt then some ((n : Int)) else none) = some (n : Int)
  rw [if_pos h]

theorem splitOnFirst_none (sep : Char) (s : List Char) (h : sep ∉ s) :
    splitOnFirst sep s = none := by
  induction s with
  | nil => rfl
  | cons c cs ih =>
    rw [splitOnFirst, if_neg (fun he => h (by rw [← he]; exact List.mem_cons_self c cs)),
      ih (fun hm => h (List.mem_cons_of_mem c hm))]
    rfl

theorem splitOnFirst_append (sep : Char) (a b : List Char) (ha : sep ∉ a) :
    splitOnFirst sep (a ++ sep :: b) = some (a, b) := by
  induction a with
  | nil => rw [List.nil_append, splitOnFirst, if_pos rfl]
  | cons c cs ih =>
    rw [List.cons_append, splitOnFirst,
      if_neg (fun he => ha (by rw [← he]; exact List.mem_cons_self c cs)),
      ih (fun hm => ha (List.mem_cons_of_mem c hm))]
    rfl

theorem splitAddrAux_none (s : List Char) (h : ':' ∉ s) : splitAddrAux s = none := by
  induction s with
  | nil => rfl
  | cons c cs ih =>
    rw [splitAddrAux, ih (fun hm => h (List.mem_cons_of_mem c hm))]
    exact if_neg (fun he => h (by rw [← he]; exact List.mem_cons_self c cs))

theorem splitAddr_no_colon (s : List Char) (h : ':' ∉ s) : splitAddr s = (s, []) := by
  rw [splitAddr, splitAddrAux_none s h]
  rfl

theorem splitAddrAux_last (a b : List Char) (hb : ':' ∉ b) :
    splitAddrAux (a ++ ':' :: b) = some (a, b) := by
  induction a with
  | nil =>
    rw [List.nil_append, splitAddrAux, splitAddrAux_none b hb, if_pos rfl]
  | cons c cs ih =>
    rw [List.cons_append, splitAddrAux, ih]

theorem splitAddr_last (a b : List Char) (hb : ':' ∉ b) :
    splitAddr (a ++ ':' :: b) = (a, b) := by
  rw [splitAddr, splitAddrAux_last a b hb]
  rfl

theorem dropWhile_of_none (p : Char → Bool) (s : List Char)
    (h : ∀ c ∈ s, p c = false) : s.dropWhile p = s := by
  cases s with
  | nil => rfl
  | cons c cs =>
    rw [List.dropWhile_cons, h c (List.mem_cons_self c cs)]
    simp

theorem trimSpace_id (s : List Char) (h : ∀ c ∈ s, isSpaceChar c = false) :
    trimSpace s = s := by
  rw [trimSpace, dropWhile_of_none _ s h,
    dropWhile_of_none _ s.reverse (fun c hc => h c (List.mem_reverse.mp hc)),
    List.reverse_reverse]

theorem digit_not_space (c : Char) (h : '0' ≤ c ∧ c ≤ '9') : isSpaceChar c = false := by
  rw [isSpaceChar, decide_eq_false_iff_not]
  rintro (rfl | rfl | rfl | rfl) <;> exact absurd h (by decide)

/-- Default mapping used with `List.getD`. -/
def dmyMapping : Mapping := ⟨⟨⟨.artnet, 0⟩, 1, 512⟩, ⟨⟨.artnet, 0⟩, 1⟩⟩

theorem loadValidate_go (ms : List Mapping) : ∀ (k i : Nat) (e : MapErr),
    loadValidate ms k = some (i, e) →
      k ≤ i ∧ i - k < ms.length ∧
        checkMapping (ms.getD (i - k) dmyMapping) = some e ∧
        ∀ j, j < i - k → checkMapping (ms.getD j dmyMapping) = none := by
  induction ms with
  | nil => intro k i e h; exact absurd h (by rw [loadValidate]; simp)
  | cons m ms ih =>
    intro k i e h
    rw [loadValidate] at h
    rcases hc : checkMapping m with _ | e'
    · rw [hc] at h
      obtain ⟨h1, h2, h3, h4⟩ := ih (k + 1) i e h
      refine ⟨by omega, by simp only [List.length_cons]; omega, ?_, ?_⟩
      · have hik : i - k = (i - (k + 1)) + 1 := by omega
        rw [hik, List.getD_cons_succ]
        exact h3
      · intro j hj
        cases j with
        | zero => rw [List.getD_cons_zero]; exact hc
        | succ j =>
          rw [List.getD_cons_succ]
          exact h4 j (by omega)
    · rw [hc] at h
      have hke : (k, e') = (i, e) := by
        injection h
      obtain ⟨rfl, rfl⟩ := Prod.mk.injEq _ _ _ _ |>.mp hke
      refine ⟨le_refl k, by simp, ?_, ?_⟩
      · rw [Nat.sub_self, List.getD_cons_zero]
        exact hc
      · intro j hj
        omega

theorem loadValidate_none (ms : List Mapping) : ∀ k : Nat,
    loadValidate ms k = none ↔ ∀ m ∈ ms, checkMapping m = none := by
  induction ms with
  | nil => intro k; simp [loadValidate]
  | cons m ms ih =>
    intro k
    rw [loadValidate]
    rcases hc : checkMapping m with _ | e'
    · simp only [List.mem_cons]
      constructor
      · intro h x hx
        rcases hx with rfl | hx
        · exact hc
        · exact (ih (k + 1)).mp h x hx
      · intro h
        exact (ih (k + 1)).mpr fun x hx => h x (Or.inr hx)
    · simp only [List.mem_cons]
      constructor
      · intro h
        exact absurd h (by simp)
      · intro h
        exact absurd (h m (Or.inl rfl)) (by rw [hc]; simp)

theorem parseToAddr_digits (n : Nat) (h : n ≤ goMaxInt) :
    parseToAddr (artnetPfx ++ '0' :: ':' :: natRepr n) =
      some ⟨⟨.artnet, 0⟩, (n : Int)⟩ := by
  have htrim : trimSpace (artnetPfx ++ '0' :: ':' :: natRepr n) =
      artnetPfx ++ '0' :: ':' :: natRepr n := by
    refine trimSpace_id _ fun c hc => ?_
    rcases List.mem_append.mp hc with hm | hm
    · simp only [artnetPfx, List.mem_cons, List.not_mem_nil, or_false] at hm
      rcases hm with rfl | rfl | rfl | rfl | rfl | rfl | rfl <;> decide
    · rcases List.mem_cons.mp hm with rfl | hm
      · decide
      · rcases List.mem_cons.mp hm with rfl | hm
        · decide
        · exact digit_not_space c (natRepr_digits n c hm)
  have hsplit : splitAddr ('0' :: ':' :: natRepr n) = (['0'], natRepr n) := by
    have := splitAddr_last ['0'] (natRepr n) (natRepr_no_colon n)
    rwa [List.singleton_append] at this
  rw [parseToAddr, htrim, splitProtoPfx_artnet, Option.some_bind, hsplit]
  dsimp only
  have h0 : parseUniverseNumber ['0'] .artnet = some 0 := by decide
  rw [h0, Option.some_bind, makeUniverse, if_neg (by omega), Option.some_bind,
    if_neg (natRepr_ne_nil n), if_neg (natRepr_no_dash n), goAtoi_natRepr n h]
  rfl

/-- C10: the address parsers impose no [1,512] channel bounds:
`"artnet:0:0"` and `"artnet:0:700-900"` parse successfully, and
`parseToAddr` accepts every decimal channel number (any digit string
within Go int range); the channel-range bounds and the
to-range-fits-within-512 constraint are enforced only by `Load`'s
validation loop, which reports the first violating mapping's 0-based
index (every mapping before the reported index passes). -/
theorem claim_C10_parsers_impose_no_channel_bounds :
    parseFromAddr "artnet:0:0".toList = some ⟨⟨.artnet, 0⟩, 0, 0⟩ ∧
      parseFromAddr "artnet:0:700-900".toList = some ⟨⟨.artnet, 0⟩, 700, 900⟩ ∧
      (∀ n : Nat, n ≤ goMaxInt →
        parseToAddr (artnetPfx ++ '0' :: ':' :: natRepr n) =
          some ⟨⟨.artnet, 0⟩, (n : Int)⟩) ∧
      (∀ (ms : List Mapping) (i : Nat) (e : MapErr),
        loadValidate ms 0 = some (i, e) →
          i < ms.length ∧ checkMapping (ms.getD i dmyMapping) = some e ∧
            ∀ j, j < i → checkMapping (ms.getD j dmyMapping) = none) ∧
      (∀ ms : List Mapping, loadValidate ms 0 = none ↔
        ∀ m ∈ ms, checkMapping m = none) := by
  refine ⟨by decide, by decide, parseToAddr_digits, ?_, fun ms => loadValidate_none ms 0⟩
  intro ms i e hl
  obtain ⟨h1, h2, h3, h4⟩ := loadValidate_go ms 0 i e hl
  rw [Nat.sub_zero] at h2 h3 h4
  exact ⟨h2, h3, h4⟩

/-- Witness for C10 at channel 700. -/
theorem claim_C10_witness :
    (700 : Nat) ≤ goMaxInt ∧
      parseToAddr (artnetPfx ++ '0' :: ':' :: natRepr 700) =
        some ⟨⟨.artnet, 0⟩, (700 : Int)⟩ :=
  ⟨by decide, claim_C10_parsers_impose_no_channel_bounds.2.2.1 700 (by decide)⟩

/-! ## Claim C6 -/

/-- The per-protocol universe-number invariant guaranteed by
`makeUniverse`. -/
def validU (u : ConfUniverse) : Prop :=
  match u.protocol with
  | .artnet => u.number ≤ 32767
  | .sacn => 1 ≤ u.number ∧ u.number ≤ 63999

theorem makeUniverse_valid {p : Protocol} {n : Nat} {u : ConfUniverse}
    (h : makeUniverse p n = some u) : u = ⟨p, n⟩ ∧ validU u := by
  cases p
  · rw [makeUniverse] at h
    by_cases h1 : n > 32767
    · rw [if_pos h1] at h
      exact absurd h (by simp)
    · rw [if_neg h1] at h
      injection h with h2
      subst h2
      exact ⟨rfl, show n ≤ 32767 by omega⟩
  · rw [makeUniverse] at h
    by_cases h1 : n < 1 ∨ n > 63999
    · rw [if_pos h1] at h
      exact absurd h (by simp)
    · rw [if_neg h1] at h
      injection h with h2
      subst h2
      exact ⟨rfl, show 1 ≤ n ∧ n ≤ 63999 by omega⟩

theorem makeUniverse_of_valid (u : ConfUniverse) (h : validU u) :
    makeUniverse u.protocol u.number = some u := by
  obtain ⟨p, num⟩ := u
  cases p <;> rw [validU] at h <;> rw [makeUniverse]
  · rw [if_neg (by omega)]
  · rw [if_neg (by omega)]

theorem goAtoi_le_max {s : List Char} {n : Int} (h : goAtoi s = some n) :
    n ≤ (goMaxInt : Int) := by
  rcases s with _ | ⟨c, rest⟩
  · exact absurd h (by rw [goAtoi]; simp)
  · rw [goAtoi] at h
    split_ifs at h with h1 h2
    · rcases hp : parseDigits rest with _ | v <;> rw [hp] at h
      · exact absurd h (by simp)
      · rw [Option.some_bind] at h
        split_ifs at h with hv
        · injection h with h3
          omega
    · rcases hp : parseDigits rest with _ | v <;> rw [hp] at h
      · exact absurd h (by simp)
      · rw [Option.some_bind] at h
        split_ifs at h with hv
        · injection h with h3
          omega
    · rcases hp : parseDigits (c :: rest) with _ | v <;> rw [hp] at h
      · exact absurd h (by simp)
      · rw [Option.some_bind] at h
        split_ifs at h with hv
        · injection h with h3
          omega

theorem goAtoi_nonneg {s : List Char} {n : Int} (h : goAtoi s = some n)
    (hd : '-' ∉ s) : 0 ≤ n := by
  rcases s with _ | ⟨c, rest⟩
  · exact absurd h (by rw [goAtoi]; simp)
  · rw [goAtoi] at h
    rw [if_neg (fun he => hd (by rw [← he]; exact List.mem_cons_self c rest))] at h
    split_ifs at h with h2
    · rcases hp : parseDigits rest with _ | v <;> rw [hp] at h
      · exact absurd h (by simp)
      · rw [Option.some_bind] at h
        split_ifs at h with hv
        · injection h with h3
          omega
    · rcases hp : parseDigits (c :: rest) with _ | v <;> rw [hp] at h
      · exact absurd h (by simp)
      · rw [Option.some_bind] at h
        split_ifs at h with hv
        · injection h with h3
          omega

theorem splitOnFirst_eq_none {sep : Char} {s : List Char}
    (h : splitOnFirst sep s = none) : sep ∉ s := by
  induction s with
  | nil => exact List.not_mem_nil sep
  | cons c cs ih =>
    by_cases hc : c = sep
    · rw [splitOnFirst, if_pos hc] at h
      exact absurd h (by simp)
    · rw [splitOnFirst, if_neg hc] at h
      have h2 := Option.map_eq_none'.mp h
      intro hm
      rcases List.mem_cons.mp hm with he | hm2
      · exact hc he.symm
      · exact ih h2 hm2

theorem splitOnFirst_some {sep : Char} {s pre post : List Char}
    (h : splitOnFirst sep s = some (pre, post)) :
    sep ∉ pre ∧ s = pre ++ sep :: post := by
  induction s generalizing pre with
  | nil => exact absurd h (by rw [splitOnFirst]; simp)
  | cons c cs ih =>
    by_cases hc : c = sep
    · rw [splitOnFirst, if_pos hc] at h
      injection h with h2
      obtain ⟨h3, h4⟩ := Prod.mk.injEq _ _ _ _ |>.mp h2
      subst hc h4
      rw [← h3]
      exact ⟨List.not_mem_nil _, rfl⟩
    · rw [splitOnFirst, if_neg hc] at h
      rcases hsp : splitOnFirst sep cs with _ | ⟨p2, q2⟩ <;> rw [hsp] at h
      · exact absurd h (by simp)
      · rw [Option.map_some'] at h
        dsimp only at h
        injection h with h2
        obtain ⟨h3, h4⟩ := Prod.mk.injEq _ _ _ _ |>.mp h2
        obtain ⟨hp2, hq2⟩ := ih (by rw [hsp, h4])
        constructor
        · rw [← h3]
          intro hm
          rcases List.mem_cons.mp hm with he | hm2
          · exact hc he.symm
          · exact hp2 hm2
        · rw [← h3, List.cons_append, ← hq2]

theorem parseChannelRange_inv {spec : List Char} {st en : Int}
    (h : parseChannelRange spec = some (st, en)) :
    0 ≤ st ∧ st ≤ en ∧ st ≤ (goMaxInt : Int) ∧ en ≤ (goMaxInt : Int) := by
  rw [parseChannelRange] at h
  rcases hsp : splitOnFirst '-' spec with _ | ⟨pre, post⟩ <;> rw [hsp] at h <;>
    dsimp only at h
  · rcases ha : goAtoi spec with _ | a <;> rw [ha] at h
    · exact absurd h (by simp)
    · rw [Option.some_bind] at h
      rw [if_neg (by omega)] at h
      injection h with h2
      obtain ⟨h3, h4⟩ := Prod.mk.injEq _ _ _ _ |>.mp h2
      subst h3 h4
      have h1 := goAtoi_nonneg ha (splitOnFirst_eq_none hsp)
      have h5 := goAtoi_le_max ha
      exact ⟨h1, le_refl _, h5, h5⟩
  · obtain ⟨hpre, hspec⟩ := splitOnFirst_some hsp
    rcases ha : goAtoi pre with _ | a <;> rw [ha] at h
    · exact absurd h (by simp)
    · rw [Option.some_bind] at h
      rcases hb : (if post = [] then some (512 : Int) else goAtoi post) with _ | b <;>
        rw [hb] at h
      · exact absurd h (by simp)
      · rw [Option.some_bind] at h
        by_cases hgt : a > b
        · rw [if_pos hgt] at h
          exact absurd h (by simp)
        · rw [if_neg hgt] at h
          injection h with h2
          obtain ⟨h3, h4⟩ := Prod.mk.injEq _ _ _ _ |>.mp h2
          subst h3 h4
          have h1 := goAtoi_nonneg ha hpre
          have h5 := goAtoi_le_max ha
          have h6 : b ≤ (goMaxInt : Int) := by
            by_cases hpost : post = []
            · rw [if_pos hpost] at hb
              injection hb with h7
              rw [← h7, goMaxInt]
              omega
            · rw [if_neg hpost] at hb
              exact goAtoi_le_max hb
          exact ⟨h1, by omega, h5, h6⟩

theorem emod_toNat_small (x : Nat) (m : Int) (h : (x : Int) < m) :
    ((x : Int).emod m).toNat = x := by
  have he : (x : Int).emod m = (x : Int) % m := rfl
  rw [he, Int.emod_eq_of_lt (by positivity) h, Int.toNat_natCast]

theorem splitDots_no_dot (a : List Char) (ha : '.' ∉ a) : splitDots a = [a] := by
  induction a with
  | nil => rfl
  | cons c cs ih =>
    rw [splitDots, if_neg (fun he => ha (by rw [← he]; exact List.mem_cons_self c cs)),
      ih (fun hm => ha (List.mem_cons_of_mem c hm))]

theorem splitDots_append (a t : List Char) (ha : '.' ∉ a) :
    splitDots (a ++ '.' :: t) = a :: splitDots t := by
  induction a with
  | nil => rw [List.nil_append, splitDots, if_pos rfl]
  | cons c cs ih =>
    rw [List.cons_append, splitDots,
      if_neg (fun he => ha (by rw [← he]; exact List.mem_cons_self c cs)),
      ih (fun hm => ha (List.mem_cons_of_mem c hm))]

theorem uniBody_chars (u : ConfUniverse) :
    ∀ c ∈ uniBody u, ('0' ≤ c ∧ c ≤ '9') ∨ c = '.' := by
  obtain ⟨p, num⟩ := u
  cases p <;> intro c hc
  · rw [uniBody] at hc
    dsimp only at hc
    rcases List.mem_append.mp hc with hm | hm
    · rcases List.mem_append.mp hm with hm2 | hm2
      · exact Or.inl (natRepr_digits _ c hm2)
      · rcases List.mem_cons.mp hm2 with rfl | hm3
        · exact Or.inr rfl
        · exact Or.inl (natRepr_digits _ c hm3)
    · rcases List.mem_cons.mp hm with rfl | hm3
      · exact Or.inr rfl
      · exact Or.inl (natRepr_digits _ c hm3)
  · exact Or.inl (natRepr_digits _ c hc)

theorem uniBody_no_colon (u : ConfUniverse) : ':' ∉ uniBody u := by
  intro hm
  rcases uniBody_chars u ':' hm with hd | hd
  · exact absurd hd (by decide)
  · exact absurd hd (by decide)

theorem uniBody_no_space (u : ConfUniverse) :
    ∀ c ∈ uniBody u, isSpaceChar c = false := by
  intro c hc
  rcases uniBody_chars u c hc with hd | hd
  · exact digit_not_space c hd
  · subst hd
    decide

theorem universeStr_no_space (u : ConfUniverse) :
    ∀ c ∈ universeStr u, isSpaceChar c = false := by
  obtain ⟨p, num⟩ := u
  cases p <;> intro c hc <;> rw [universeStr] at hc <;> dsimp only at hc
  · rcases List.mem_append.mp hc with hm | hm
    · simp only [artnetPfx, List.mem_cons, List.not_mem_nil, or_false] at hm
      rcases hm with rfl | rfl | rfl | rfl | rfl | rfl | rfl <;> decide
    · exact uniBody_no_space _ c hm
  · rcases List.mem_append.mp hc with hm | hm
    · simp only [sacnPfx, List.mem_cons, List.not_mem_nil, or_false] at hm
      rcases hm with rfl | rfl | rfl | rfl | rfl <;> decide
    · exact uniBody_no_space _ c hm

theorem parseUniverseNumber_uniBody (u : ConfUniverse) (h : validU u) :
    parseUniverseNumber (uniBody u) u.protocol = some u.number := by
  obtain ⟨p, num⟩ := u
  cases p
  · rw [validU] at h
    dsimp only at h
    rw [uniBody]
    dsimp only
    set x := num / 256 % 128 with hx
    set y := num / 16 % 16 with hy
    set z := num % 16 with hz
    have hbody : natRepr x ++ '.' :: natRepr y ++ '.' :: natRepr z =
        natRepr x ++ '.' :: (natRepr y ++ '.' :: natRepr z) := by
      simp [List.append_assoc]
    rw [parseUniverseNumber, if_pos ?hdot]
    case hdot =>
      rw [hbody]
      exact List.mem_append.mpr (Or.inr (List.mem_cons_self _ _))
    rw [if_neg (by simp)]
    rw [hbody, splitDots_append _ _ (natRepr_no_dot x),
      splitDots_append _ _ (natRepr_no_dot y), splitDots_no_dot _ (natRepr_no_dot z)]
    dsimp only
    have hxb : x ≤ goMaxInt := by rw [goMaxInt]; omega
    have hyb : y ≤ goMaxInt := by rw [goMaxInt]; omega
    have hzb : z ≤ goMaxInt := by rw [goMaxInt]; omega
    rw [goAtoi_natRepr x hxb, Option.some_bind, goAtoi_natRepr y hyb,
      Option.some_bind, goAtoi_natRepr z hzb, Option.some_bind]
    congr 1
    rw [combineNSU]
    rw [emod_toNat_small x 128 (by rw [hx]; exact_mod_cast Nat.mod_lt _ (by omega)),
      emod_toNat_small y 16 (by rw [hy]; exact_mod_cast Nat.mod_lt _ (by omega)),
      emod_toNat_small z 16 (by rw [hz]; exact_mod_cast Nat.mod_lt _ (by omega)),
      hx, hy, hz]
    omega
  · rw [validU] at h
    dsimp only at h
    rw [uniBody]
    dsimp only
    rw [parseUniverseNumber, if_neg (natRepr_no_dot num),
      goAtoi_natRepr num (by rw [goMaxInt]; omega), Option.map_some']
    congr 1
    exact emod_toNat_small num 65536 (by exact_mod_cast (by omega : num < 65536))

theorem universeStr_eq (u : ConfUniverse) :
    universeStr u = (match u.protocol with
      | .artnet => artnetPfx
      | .sacn => sacnPfx) ++ uniBody u := by
  obtain ⟨p, num⟩ := u
  cases p <;> rfl

theorem splitProtoPfx_universeStr (u : ConfUniverse) (t : List Char) :
    splitProtoPfx (universeStr u ++ t) = some (u.protocol, uniBody u ++ t) := by
  obtain ⟨p, num⟩ := u
  cases p
  · rw [universeStr_eq]
    dsimp only
    rw [List.append_assoc]
    exact splitProtoPfx_artnet _
  · rw [universeStr_eq]
    dsimp only
    rw [List.append_assoc]
    exact splitProtoPfx_sacn _

theorem parseUniverse_print (u : ConfUniverse) (h : validU u) :
    parseUniverse (universeStr u) = some u := by
  have h1 : universeStr u = universeStr u ++ [] := by rw [List.append_nil]
  rw [parseUniverse, h1, splitProtoPfx_universeStr, Option.some_bind, List.append_nil]
  dsimp only
  rw [parseUniverseNumber_uniBody u h, Option.some_bind, makeUniverse_of_valid u h]

theorem trimSpace_universeStr (u : ConfUniverse) (t : List Char)
    (ht : ∀ c ∈ t, isSpaceChar c = false) :
    trimSpace (universeStr u ++ t) = universeStr u ++ t := by
  refine trimSpace_id _ fun c hc => ?_
  rcases List.mem_append.mp hc with hm | hm
  · exact universeStr_no_space u c hm
  · exact ht c hm

theorem parseFromAddr_full (u : ConfUniverse) (h : validU u) :
    parseFromAddr (universeStr u) = some ⟨u, 1, 512⟩ := by
  rw [parseFromAddr, trimSpace_id _ (universeStr_no_space u)]
  have h1 : universeStr u = universeStr u ++ [] := (List.append_nil _).symm
  rw [h1, splitProtoPfx_universeStr, Option.some_bind, List.append_nil]
  dsimp only
  rw [splitAddr_no_colon _ (uniBody_no_colon u)]
  dsimp only
  rw [parseUniverseNumber_uniBody u h, Option.some_bind, makeUniverse_of_valid u h,
    Option.some_bind, if_pos rfl]

theorem parseFromAddr_spec (u : ConfUniverse) (h : validU u) (spec : List Char)
    (hsp : ∀ c ∈ spec, isSpaceChar c = false) (hnc : ':' ∉ spec) (hne : spec ≠ []) :
    parseFromAddr (universeStr u ++ ':' :: spec) =
      (parseChannelRange spec).map fun ab => ⟨u, ab.1, ab.2⟩ := by
  rw [parseFromAddr, trimSpace_universeStr u _ ?hns]
  case hns =>
    intro c hc
    rcases List.mem_cons.mp hc with rfl | hm
    · decide
    · exact hsp c hm
  rw [splitProtoPfx_universeStr, Option.some_bind]
  dsimp only
  rw [splitAddr_last _ _ hnc]
  dsimp only
  rw [parseUniverseNumber_uniBody u h, Option.some_bind, makeUniverse_of_valid u h,
    Option.some_bind, if_neg hne]

theorem parseToAddr_full (u : ConfUniverse) (h : validU u) :
    parseToAddr (universeStr u) = some ⟨u, 1⟩ := by
  rw [parseToAddr, trimSpace_id _ (universeStr_no_space u)]
  have h1 : universeStr u = universeStr u ++ [] := (List.append_nil _).symm
  rw [h1, splitProtoPfx_universeStr, Option.some_bind, List.append_nil]
  dsimp only
  rw [splitAddr_no_colon _ (uniBody_no_colon u)]
  dsimp only
  rw [parseUniverseNumber_uniBody u h, Option.some_bind, makeUniverse_of_valid u h,
    Option.some_bind, if_pos rfl]

theorem parseToAddr_spec (u : ConfUniverse) (h : validU u) (spec : List Char)
    (hsp : ∀ c ∈ spec, isSpaceChar c = false) (hnc : ':' ∉ spec) (hne : spec ≠ []) :
    parseToAddr (universeStr u ++ ':' :: spec) =
      (if '-' ∈ spec then none
       else (goAtoi spec).map fun ch => ⟨u, ch⟩) := by
  rw [parseToAddr, trimSpace_universeStr u _ ?hns]
  case hns =>
    intro c hc
    rcases List.mem_cons.mp hc with rfl | hm
    · decide
    · exact hsp c hm
  rw [splitProtoPfx_universeStr, Option.some_bind]
  dsimp only
  rw [splitAddr_last _ _ hnc]
  dsimp only
  rw [parseUniverseNumber_uniBody u h, Option.some_bind, makeUniverse_of_valid u h,
    Option.some_bind, if_neg hne]

theorem parseUniverse_inv {s : List Char} {u : ConfUniverse}
    (h : parseUniverse s = some u) : validU u := by
  rw [parseUniverse] at h
  rcases h1 : splitProtoPfx s with _ | p <;> rw [h1] at h
  · exact absurd h (by simp)
  · rw [Option.some_bind] at h
    rcases h2 : parseUniverseNumber p.2 p.1 with _ | n <;> rw [h2] at h
    · exact absurd h (by simp)
    · rw [Option.some_bind] at h
      exact (makeUniverse_valid h).2

theorem parseFromAddr_inv {s : List Char} {a : FromAddr}
    (h : parseFromAddr s = some a) :
    validU a.univ ∧ 0 ≤ a.channelStart ∧ a.channelStart ≤ a.channelEnd ∧
      a.channelStart ≤ (goMaxInt : Int) ∧ a.channelEnd ≤ (goMaxInt : Int) := by
  rw [parseFromAddr] at h
  rcases h1 : splitProtoPfx (trimSpace s) with _ | p <;> rw [h1] at h
  · exact absurd h (by simp)
  · rw [Option.some_bind] at h
    dsimp only at h
    rcases h2 : parseUniverseNumber (splitAddr p.2).1 p.1 with _ | n <;> rw [h2] at h
    · exact absurd h (by simp)
    · rw [Option.some_bind] at h
      rcases h3 : makeUniverse p.1 n with _ | u <;> rw [h3] at h
      · exact absurd h (by simp)
      · rw [Option.some_bind] at h
        have hval := (makeUniverse_valid h3).2
        by_cases h4 : (splitAddr p.2).2 = []
        · rw [if_pos h4] at h
          injection h with h5
          rw [← h5]
          refine ⟨hval, by norm_num, by norm_num, ?_, ?_⟩ <;> rw [goMaxInt] <;> norm_num
        · rw [if_neg h4] at h
          rcases h6 : parseChannelRange (splitAddr p.2).2 with _ | ab <;> rw [h6] at h
          · exact absurd h (by simp)
          · obtain ⟨st, en⟩ := ab
            rw [Option.map_some'] at h
            injection h with h5
            obtain ⟨b1, b2, b3, b4⟩ := parseChannelRange_inv h6
            rw [← h5]
            exact ⟨hval, b1, b2, b3, b4⟩

theorem parseToAddr_inv {s : List Char} {a : ToAddr}
    (h : parseToAddr s = some a) :
    validU a.univ ∧ 0 ≤ a.channelStart ∧ a.channelStart ≤ (goMaxInt : Int) := by
  rw [parseToAddr] at h
  rcases h1 : splitProtoPfx (trimSpace s) with _ | p <;> rw [h1] at h
  · exact absurd h (by simp)
  · rw [Option.some_bind] at h
    dsimp only at h
    rcases h2 : parseUniverseNumber (splitAddr p.2).1 p.1 with _ | n <;> rw [h2] at h
    · exact absurd h (by simp)
    · rw [Option.some_bind] at h
      rcases h3 : makeUniverse p.1 n with _ | u <;> rw [h3] at h
      · exact absurd h (by simp)
      · rw [Option.some_bind] at h
        have hval := (makeUniverse_valid h3).2
        by_cases h4 : (splitAddr p.2).2 = []
        · rw [if_pos h4] at h
          injection h with h5
          rw [← h5]
          refine ⟨hval, by norm_num, ?_⟩
          rw [goMaxInt]
          norm_num
        · rw [if_neg h4] at h
          by_cases h5 : '-' ∈ (splitAddr p.2).2
          · rw [if_pos h5] at h
            exact absurd h (by simp)
          · rw [if_neg h5] at h
            rcases h6 : goAtoi (splitAddr p.2).2 with _ | ch <;> rw [h6] at h
            · exact absurd h (by simp)
            · rw [Option.map_some'] at h
              injection h with h7
              rw [← h7]
              exact ⟨hval, goAtoi_nonneg h6 h5, goAtoi_le_max h6⟩

theorem fromAddr_roundtrip {s : List Char} {a : FromAddr}
    (h : parseFromAddr s = some a) : parseFromAddr (fromAddrStr a) = some a := by
  obtain ⟨hval, h0, hle, hsm, hem⟩ := parseFromAddr_inv h
  clear h
  obtain ⟨u, st, en⟩ := a
  dsimp only at hval h0 hle hsm hem
  rw [fromAddrStr]
  dsimp only
  by_cases h1 : st = 1 ∧ en = 512
  · rw [if_pos h1]
    obtain ⟨rfl, rfl⟩ := h1
    exact parseFromAddr_full u hval
  · rw [if_neg h1]
    by_cases h2 : st = en
    · subst h2
      rw [if_pos rfl]
      have hir : intRepr st = natRepr st.toNat := by
        rw [intRepr, if_neg (by omega)]
      rw [hir, parseFromAddr_spec u hval _
        (fun c hc => digit_not_space c (natRepr_digits _ c hc))
        (natRepr_no_colon _) (natRepr_ne_nil _)]
      rw [parseChannelRange, splitOnFirst_none '-' _ (natRepr_no_dash _)]
      dsimp only
      rw [goAtoi_natRepr _ (by omega), Option.some_bind, if_neg (by omega),
        Option.map_some']
      have hc : ((st.toNat : Int)) = st := Int.toNat_of_nonneg h0
      rw [hc]
    · rw [if_neg h2]
      have hen0 : 0 ≤ en := le_trans h0 hle
      have hirs : intRepr st = natRepr st.toNat := by
        rw [intRepr, if_neg (by omega)]
      have hire : intRepr en = natRepr en.toNat := by
        rw [intRepr, if_neg (by omega)]
      have hassoc : universeStr u ++ ':' :: intRepr st ++ '-' :: intRepr en =
          universeStr u ++ ':' :: (natRepr st.toNat ++ '-' :: natRepr en.toNat) := by
        rw [hirs, hire, List.append_assoc, List.cons_append]
      rw [hassoc, parseFromAddr_spec u hval _ ?hsp ?hnc ?hne]
      case hsp =>
        intro c hc
        rcases List.mem_append.mp hc with hm | hm
        · exact digit_not_space c (natRepr_digits _ c hm)
        · rcases List.mem_cons.mp hm with rfl | hm2
          · decide
          · exact digit_not_space c (natRepr_digits _ c hm2)
      case hnc =>
        intro hm
        rcases List.mem_append.mp hm with hm2 | hm2
        · exact natRepr_no_colon _ hm2
        · rcases List.mem_cons.mp hm2 with he | hm3
          · exact absurd he (by decide)
          · exact natRepr_no_colon _ hm3
      case hne =>
        intro he
        exact natRepr_ne_nil st.toNat (List.append_eq_nil.mp he).1
      rw [parseChannelRange, splitOnFirst_append '-' _ _ (natRepr_no_dash _)]
      dsimp only
      rw [goAtoi_natRepr _ (by omega), Option.some_bind,
        if_neg (natRepr_ne_nil _), goAtoi_natRepr _ (by omega), Option.some_bind]
      have hcs : ((st.toNat : Int)) = st := Int.toNat_of_nonneg h0
      have hce : ((en.toNat : Int)) = en := Int.toNat_of_nonneg hen0
      rw [hcs, hce, if_neg (by omega), Option.map_some']

theorem toAddr_roundtrip {s : List Char} {a : ToAddr}
    (h : parseToAddr s = some a) : parseToAddr (toAddrStr a) = some a := by
  obtain ⟨hval, h0, hm⟩ := parseToAddr_inv h
  clear h
  obtain ⟨u, ch⟩ := a
  dsimp only at hval h0 hm
  rw [toAddrStr]
  dsimp only
  by_cases h1 : ch = 1
  · rw [if_pos h1]
    subst h1
    exact parseToAddr_full u hval
  · rw [if_neg h1]
    have hir : intRepr ch = natRepr ch.toNat := by
      rw [intRepr, if_neg (by omega)]
    rw [hir, parseToAddr_spec u hval _
      (fun c hc => digit_not_space c (natRepr_digits _ c hc))
      (natRepr_no_colon _) (natRepr_ne_nil _)]
    rw [if_neg (natRepr_no_dash _), goAtoi_natRepr _ (by omega), Option.map_some']
    have hc2 : ((ch.toNat : Int)) = ch := Int.toNat_of_nonneg h0
    rw [hc2]

/-- C6: print/parse round trip.  Every `Universe`, `FromAddr` or
`ToAddr` value produced by its parser re-parses from its printed
string form to the same value; an Art-Net universe parsed from a plain
decimal body prints in dotted `N.S.U` form (and, by the first
conjunct, re-parses to the same universe); a full-range From address
prints without the `:spec` suffix, and a single-channel range prints
as `:N`. -/
theorem claim_C6_print_parse_roundtrip :
    (∀ (s : List Char) (u : ConfUniverse), parseUniverse s = some u →
      parseUniverse (universeStr u) = some u) ∧
      (∀ (s : List Char) (a : FromAddr), parseFromAddr s = some a →
        parseFromAddr (fromAddrStr a) = some a) ∧
      (∀ (s : List Char) (a : ToAddr), parseToAddr s = some a →
        parseToAddr (toAddrStr a) = some a) ∧
      (∀ (s : List Char) (u : ConfUniverse), parseUniverse (artnetPfx ++ s) = some u →
        '.' ∉ s → ∃ x y z, universeStr u =
          artnetPfx ++ (natRepr x ++ '.' :: natRepr y ++ '.' :: natRepr z)) ∧
      (∀ a : FromAddr, a.channelStart = 1 → a.channelEnd = 512 →
        fromAddrStr a = universeStr a.univ) ∧
      (∀ a : FromAddr, a.channelStart = a.channelEnd →
        ¬(a.channelStart = 1 ∧ a.channelEnd = 512) →
        fromAddrStr a = universeStr a.univ ++ ':' :: intRepr a.channelStart) := by
  refine ⟨fun s u h => parseUniverse_print u (parseUniverse_inv h),
    fun s a h => fromAddr_roundtrip h, fun s a h => toAddr_roundtrip h,
    ?_, ?_, ?_⟩
  · intro s u h hdot
    rw [parseUniverse, splitProtoPfx_artnet, Option.some_bind] at h
    rcases h2 : parseUniverseNumber s .artnet with _ | n <;> rw [h2] at h
    · exact absurd h (by simp)
    · rw [Option.some_bind] at h
      obtain ⟨he, _⟩ := makeUniverse_valid h
      subst he
      exact ⟨_, _, _, by rw [universeStr_eq, uniBody]⟩
  · intro a h1 h2
    rw [fromAddrStr, if_pos ⟨h1, h2⟩]
  · intro a h1 h2
    rw [fromAddrStr, if_neg h2, if_pos h1]

/-- Witness for C6: the FromAddr round trip at
`"artnet:0.0.1:50-100"`. -/
theorem claim_C6_witness :
    parseFromAddr "artnet:0.0.1:50-100".toList =
        some ⟨⟨.artnet, 1⟩, 50, 100⟩ ∧
      parseFromAddr (fromAddrStr ⟨⟨.artnet, 1⟩, 50, 100⟩) =
        some ⟨⟨.artnet, 1⟩, 50, 100⟩ :=
  ⟨by decide, claim_C6_print_parse_roundtrip.2.1 "artnet:0.0.1:50-100".toList ⟨⟨.artnet, 1⟩, 50, 100⟩
    (by decide)⟩
